import Mathlib

/-!
Verification of the clip-suggestion engine of `apps/worker/src/tasks.py`
(and its Deepseek client `apps/worker/src/services/deepseek_client.py`).

The Python code is shallowly embedded: every definition below is a direct
translation of the function of the same (snake_case) name in the source.
Conventions used throughout:

* Python `int` millisecond values are `ℤ`; Python `float` scores and
  similarities are `ℚ` (the float literals of the source, such as `0.6`
  or `1e-6`, are read as the decimal rationals they denote).
* Python `str` is `String`; all string manipulation is re-implemented
  structurally over `String.data` with Python's exact semantics
  (`str.split(" ")` keeps empty chunks, `in` is substring containment, …).
  The external `unicodedata` tables used by `_normalize_text` are modelled
  on the ASCII range, where NFKD decomposition is the identity and no
  character is combining; `str.lower`/`isupper`/`isdigit` are likewise
  modelled by their ASCII behaviour (all concrete inputs used in witnesses
  are ASCII).
* Sentence embeddings are vectors of rationals (`Vec`); the numpy cosine
  similarity (`_cosine_similarity`, whose value goes through `sqrt`) is an
  oracle parameter `sim : Vec → Vec → ℚ` wherever the code only compares
  its result against thresholds.
* Mutation of Python dicts is modelled functionally: a candidate dict is
  the structure `Candidate`, whose late-bound keys start at the defaults
  the surrounding code guarantees (`setdefault`).
* Python's stable `list.sort(key=…, reverse=True)` is modelled by a stable
  insertion sort `sort_by_key_desc`.
* Python `round` (banker's rounding, half to even) is `pyRound`.

The core `Rat` operations of the Lean library are `@[irreducible]`, which
blocks `decide` on concrete rational arithmetic; they are re-marked
semireducible locally (this changes nothing about their definitions).
-/

attribute [local semireducible] Rat.mul Rat.add Rat.sub Rat.inv

/-! ### Python string primitives -/

/-- Python `str.strip()` on the left: drop leading whitespace. -/
def pyLStrip (s : List Char) : List Char := s.dropWhile Char.isWhitespace

/-- Python `str.rstrip()`: drop trailing whitespace. -/
def pyRStrip (s : List Char) : List Char :=
  (s.reverse.dropWhile Char.isWhitespace).reverse

/-- Python `str.strip()`: drop whitespace on both ends. -/
def pyStrip (s : List Char) : List Char := pyRStrip (pyLStrip s)

/-- Python `str.split(" ")`: split at every single space, keeping empty
chunks (`"a  b".split(" ") == ["a", "", "b"]`). -/
def splitOnSpace (s : List Char) : List (List Char) :=
  match s with
  | [] => [[]]
  | c :: rest =>
    match splitOnSpace rest with
    | [] => [[]]
    | chunk :: chunks =>
      if c = ' ' then [] :: chunk :: chunks else (c :: chunk) :: chunks

/-- Python `" ".join(parts)` for a list of strings. -/
def joinSpace : List String → String
  | [] => ""
  | [t] => t
  | t :: ts => t ++ " " ++ joinSpace ts

/-- Python `needle in haystack` (substring containment) on char lists. -/
def containsSub (haystack needle : List Char) : Bool :=
  match haystack with
  | [] => needle.isEmpty
  | _ :: rest => haystack.take needle.length = needle || containsSub rest needle

/-- Python `head.split(sep)[0]`: the chars before the first occurrence of
a one-character separator. -/
def beforeFirst (sep : Char) (s : List Char) : List Char := s.takeWhile (· ≠ sep)

/-- Python `s.startswith(p)` on char lists. -/
def isPrefixL : List Char → List Char → Bool
  | [], _ => true
  | _ :: _, [] => false
  | c :: p, x :: s => x = c && isPrefixL p s

/-- `_count_words` from tasks.py:
`len([chunk for chunk in text.replace("\n", " ").split(" ") if chunk])`. -/
def count_words (text : String) : ℕ :=
  ((splitOnSpace (text.data.map fun c => if c = '\n' then ' ' else c)).filter
    (fun chunk => ¬ chunk.isEmpty)).length

/-- `_normalize_text` from tasks.py: NFKD-decompose, drop combining marks,
lowercase.  The `unicodedata` tables are external to the repository; they
are modelled on the ASCII range (NFKD is the identity there and no ASCII
character is combining), together with ASCII lowercasing. -/
def normalize_text (text : String) : String :=
  (text.data.map Char.toLower).asString

/-! ### Python `round` (half to even) and two-decimal formatting -/

/-- Python `round(q)` for a rational: nearest integer, ties to even. -/
def pyRound (q : ℚ) : ℤ :=
  let f := ⌊q⌋
  let r := q - (f : ℚ)
  if r < 1/2 then f
  else if r > 1/2 then f + 1
  else if f % 2 = 0 then f else f + 1

/-- Two-digit zero padding of `n % 100` for `format2`. -/
def pad2 (n : ℤ) : String := if n < 10 then "0" ++ toString n else toString n

/-- Python `"{:.2f}".format(q)` for a non-negative rational (the hook score,
always in `[0, 1]` in steps of `0.05`). -/
def format2 (q : ℚ) : String :=
  let n := pyRound (q * 100)
  toString (n / 100) ++ "." ++ pad2 (n % 100)

/-! ### Constants of tasks.py -/

def MIN_CLIP_MS : ℤ := 30000
def MAX_CLIP_MS : ℤ := 120000
def MIN_SUGGESTIONS : ℕ := 5
def MAX_SUGGESTIONS : ℕ := 15
def LONG_GAP_MS : ℤ := 1500
def START_GAP_MS : ℤ := 500
def END_GAP_MS : ℤ := 700
def SENTENCE_ENDINGS : List Char := ['.', '!', '?']
def HOOK_HEAD_CHARS : ℕ := 150
def HOOK_MIN_SCORE : ℚ := 3/10
def HOOK_BONUS_SCALE : ℚ := 3/2
def HOOK_IMPACT_WORDS : List String :=
  ["increible", "sorprendente", "nunca", "siempre", "todos", "nadie",
   "secreto", "verdad", "descubre"]
def HOOK_IMPERATIVE_STARTS : List String :=
  ["imagina", "piensa", "considera", "mira", "escucha", "recuerda"]
def HOOK_CONTRAST_WORDS : List String := ["pero", "sin embargo", "aunque", "a pesar de"]
def SEMANTIC_BREAKPOINT_SIMILARITY : ℚ := 1/2
def SEMANTIC_DEDUPE_SIMILARITY : ℚ := 86/100
def SEMANTIC_DEDUPE_MAX : ℕ := 200
def SEMANTIC_TYPE_MAX : ℕ := 200
def SEMANTIC_TYPE_SCORES : List (String × ℚ) :=
  [("application", 3/2), ("illustration", 6/5), ("conclusion", 1), ("exposition", 7/10)]
def HEURISTIC_SCORE_WEIGHT : ℚ := 3/10
def LLM_SCORE_WEIGHT : ℚ := 7/10
def LLM_MAX_CANDIDATES : ℕ := 15
def LLM_TRIM_CONFIDENCE_MIN : ℚ := 8/10

/-! ### Regular-expression matchers of `_is_hook_advanced`

`re.search` only feeds a boolean (`match exists`), so each pattern is
embedded as a decidable existence check over the char list. -/

/-- A regex `\w` word character, on the ASCII range. -/
def isWordChar (c : Char) : Bool := c.isAlphanum || c = '_'

/-- Does `w ++ rest'` start here so that the char after `w` is a `\b`
boundary (non-word or end)?  Returns the remainder after `w` on success. -/
def matchWord (w : List Char) (s : List Char) : Option (List Char) :=
  match w, s with
  | [], rest =>
    match rest with
    | [] => some []
    | c :: _ => if isWordChar c then none else some rest
  | _ :: _, [] => none
  | c :: w', x :: s' => if x = c then matchWord w' s' else none

/-- Consume one-or-more whitespace (`\s+`), returning the remainder. -/
def matchSpaces (s : List Char) : Option (List Char) :=
  match s with
  | [] => none
  | c :: rest =>
    if ¬ c.isWhitespace then none
    else some (rest.dropWhile Char.isWhitespace)

/-- Prefix match without any boundary requirement after it. -/
def matchWordPlain (w : List Char) (s : List Char) : Option (List Char) :=
  match w, s with
  | [], rest => some rest
  | _ :: _, [] => none
  | c :: w', x :: s' => if x = c then matchWordPlain w' s' else none

/-- One alternative of `\b(que|como|por\s+que|porque)\b` matches starting
exactly at `s` (the left `\b` is checked by the caller). -/
def interrogHere (s : List Char) : Bool :=
  (matchWord "que".data s).isSome || (matchWord "como".data s).isSome ||
  (matchWord "porque".data s).isSome ||
  (match matchWordPlain "por".data s with
   | none => false
   | some rest =>
     match matchSpaces rest with
     | none => false
     | some rest' => (matchWord "que".data rest').isSome)

/-- `re.search(r"\b(que|como|por\s+que|porque)\b", s)` as existence: scan
every position whose left context is a `\b` boundary. -/
def interrogSearch (prevIsWord : Bool) (s : List Char) : Bool :=
  match s with
  | [] => false
  | c :: rest =>
    ((¬ prevIsWord) && interrogHere s) || interrogSearch (isWordChar c) rest

/-- Consume one-or-more digits (`\d+`), returning the remainder. -/
def matchDigits (s : List Char) : Option (List Char) :=
  match s with
  | [] => none
  | c :: rest => if ¬ c.isDigit then none else some (rest.dropWhile Char.isDigit)

/-- `\d+%` or `\d+\s+de\s+cada\s+\d+` matches starting exactly at `s`. -/
def statsHere (s : List Char) : Bool :=
  match matchDigits s with
  | none => false
  | some rest =>
    (match rest with
     | '%' :: _ => true
     | _ => false) ||
    (match matchSpaces rest with
     | none => false
     | some r1 =>
       match matchWordPlain "de".data r1 with
       | none => false
       | some r2 =>
         match matchSpaces r2 with
         | none => false
         | some r3 =>
           match matchWordPlain "cada".data r3 with
           | none => false
           | some r4 =>
             match matchSpaces r4 with
             | none => false
             | some r5 => (matchDigits r5).isSome)

/-- `re.search(r"\d+%|\d+\s+de\s+cada\s+\d+", s)` as existence (no `\b`,
so a match may start at any position; a match starting inside a digit run
is subsumed by the one starting at its head). -/
def statsSearch (s : List Char) : Bool :=
  match s with
  | [] => false
  | _ :: rest => statsHere s || statsSearch rest

/-! ### The heuristic scorer -/

/-- `_is_hook_advanced` from tasks.py: additive hook score over the first
150 chars, capped at 1. -/
def is_hook_advanced (text : String) : Bool × ℚ :=
  let head := (pyStrip text.data).take HOOK_HEAD_CHARS
  if head.isEmpty then (false, 0)
  else
    let normalized := (normalize_text head.asString).data
    let s1 : ℚ := if head.contains '?' || interrogSearch false normalized then 35/100 else 0
    let s2 : ℚ := if statsSearch normalized then 25/100 else 0
    let s3 : ℚ := if HOOK_IMPACT_WORDS.any (fun w => containsSub normalized w.data)
      then 20/100 else 0
    let s4 : ℚ := if HOOK_IMPERATIVE_STARTS.any
        (fun w => isPrefixL w.data normalized) then 15/100 else 0
    let s5 : ℚ := if HOOK_CONTRAST_WORDS.any (fun w => containsSub normalized w.data)
      then 10/100 else 0
    let s6 : ℚ := if head.contains '!' && (pyStrip (beforeFirst '!' head)).length > 10
      then 15/100 else 0
    let s7 : ℚ := if count_words head.asString ≤ 8 then 10/100 else 0
    let score := min 1 (s1 + s2 + s3 + s4 + s5 + s6 + s7)
    (HOOK_MIN_SCORE ≤ score, score)

/-- `_ends_sentence` from tasks.py. -/
def ends_sentence (text : String) : Bool :=
  let stripped := pyRStrip text.data
  if stripped.isEmpty then false
  else if stripped.reverse.take 3 = ['.', '.', '.'] then true
  else
    match stripped.getLast? with
    | some c => SENTENCE_ENDINGS.contains c
    | none => false

/-- `_starts_sentence` from tasks.py (ASCII `isupper`/`isdigit`). -/
def starts_sentence (text : String) : Bool :=
  match pyLStrip text.data with
  | [] => false
  | first :: _ => first.isUpper || first.isDigit

/-- `_is_clean_start` from tasks.py. -/
def is_clean_start (prev_gap_ms : Option ℤ) (text : String) : Bool :=
  match prev_gap_ms with
  | none => true
  | some g => if g ≥ START_GAP_MS then true else starts_sentence text

/-- `_is_clean_end` from tasks.py. -/
def is_clean_end (next_gap_ms : Option ℤ) (text : String) : Bool :=
  if ends_sentence text then true
  else
    match next_gap_ms with
    | none => true
    | some g => g ≥ END_GAP_MS

/-- `_score_candidate` from tasks.py: `(score, rationale, hook_score)`. -/
def score_candidate (text : String) (gap_ms : ℤ) (start_clean end_clean : Bool) :
    ℚ × String × ℚ :=
  let word_count := count_words text
  let text_penalty : ℚ := if word_count < 8 then 2 else if word_count < 15 then 1 else 0
  let gap_penalty : ℚ := min 2 ((gap_ms : ℚ) / 3000)
  let hook_score := (is_hook_advanced text).2
  let hook_bonus := HOOK_BONUS_SCALE * hook_score
  let start_bonus : ℚ := if start_clean then 3/10 else -(3/10)
  let end_bonus : ℚ := if end_clean then 6/10 else -(6/10)
  let score := (word_count : ℚ) / 10 + hook_bonus + start_bonus + end_bonus
    - text_penalty - gap_penalty
  let rationale := "words=" ++ toString word_count ++ "; gaps_ms=" ++ toString gap_ms
    ++ "; hook=" ++ format2 hook_score
    ++ "; start=" ++ (if start_clean then "clean" else "rough")
    ++ "; end=" ++ (if end_clean then "clean" else "rough")
  (score, rationale, hook_score)

/-! ### Segments and embedding vectors -/

/-- A sentence embedding: a vector of rationals (numpy `float32` row). -/
def Vec : Type := List ℚ

instance : DecidableEq Vec := inferInstanceAs (DecidableEq (List ℚ))
instance : Inhabited Vec := ⟨([] : List ℚ)⟩

/-- Componentwise sum (`numpy +` on rows of equal length). -/
def vadd (a b : Vec) : Vec := List.zipWith (· + ·) a b

/-- Componentwise difference (`numpy -`). -/
def vsub (a b : Vec) : Vec := List.zipWith (· - ·) a b

/-- Scalar division of a row (`row / float(count)`). -/
def vdiv (a : Vec) (k : ℚ) : Vec := a.map (· / k)

/-- The zero row of dimension `d` (`np.zeros`). -/
def vzero (d : ℕ) : Vec := List.replicate d 0

/-- A `TranscriptSegment` row as the suggestion engine sees it: timestamps,
text, and the optionally attached embedding (`_attach_embeddings` sets
`segment.embedding` for every segment found in the store). -/
structure TranscriptSegment where
  start_ms : ℤ
  end_ms : ℤ
  text : String
  embedding : Option Vec := none
  deriving DecidableEq

instance : Inhabited TranscriptSegment := ⟨⟨0, 0, "", none⟩⟩

/-- `_build_embedding_prefix` from tasks.py (`prefix[0] = 0`,
`prefix[k] = Σ embeddings[:k]`); `none` when the list is empty or any
segment lacks an embedding.  The row dimension is that of the first
embedding (`np.vstack` requires all rows to share it). -/
def build_embedding_psum (segments : List TranscriptSegment) : Option (List Vec) :=
  if segments.isEmpty then none
  else
    match segments.mapM (·.embedding) with
    | none => none
    | some embeddings =>
      let d := (embeddings.headD []).length
      some (List.scanl vadd (vzero d) embeddings)

/-- `_candidate_embedding` from tasks.py:
`(prefix[end_idx + 1] - prefix[start_idx]) / float(count)`.  A Python
`start_idx < 0` cannot arise over `ℕ`; `count <= 0` is `end_idx < start_idx`. -/
def candidate_embedding (psum : Option (List Vec)) (start_idx end_idx : ℕ) :
    Option Vec :=
  match psum with
  | none => none
  | some p =>
    if end_idx + 1 ≥ p.length then none
    else if end_idx < start_idx then none
    else
      let count : ℚ := ((end_idx - start_idx + 1 : ℕ) : ℚ)
      some (vdiv (vsub (p.getD (end_idx + 1) default) (p.getD start_idx default)) count)

/-! ### Breakpoint detection -/

/-- The gate of `_find_breakpoints` at interior boundary `i` (the body of
its loop: append `i` iff the gap exceeds `LONG_GAP_MS`, or else both
neighbours carry embeddings whose similarity is below the threshold). -/
def breakpoint_at (sim : Vec → Vec → ℚ) (segments : List TranscriptSegment)
    (i : ℕ) : Bool :=
  let prev := segments.getD (i - 1) default
  let curr := segments.getD i default
  let gap := curr.start_ms - prev.end_ms
  if gap > LONG_GAP_MS then true
  else
    match prev.embedding, curr.embedding with
    | some a, some b => sim a b < SEMANTIC_BREAKPOINT_SIMILARITY
    | _, _ => false

/-- The `cleaned` pass of `_find_breakpoints`: drop an index equal to the
last appended one. -/
def dedup_adjacent_go (last : ℕ) : List ℕ → List ℕ
  | [] => []
  | x :: xs => if x = last then dedup_adjacent_go last xs
               else x :: dedup_adjacent_go x xs

/-- `cleaned` with `last = None` initially. -/
def dedup_adjacent : List ℕ → List ℕ
  | [] => []
  | x :: xs => x :: dedup_adjacent_go x xs

/-- `_find_breakpoints` from tasks.py.  The loop
`for i in range(1, len(segments))` appends `i` exactly when the gate
holds, i.e. it builds `(range' 1 (n-1)).filter (breakpoint_at sim segments)`;
`0` is appended first and `len(segments)` last, then `cleaned` dedups
adjacent repeats.  The externally computed cosine similarity is the
oracle `sim`. -/
def find_breakpoints (sim : Vec → Vec → ℚ) (segments : List TranscriptSegment) :
    List ℕ :=
  if segments.isEmpty then [0]
  else
    dedup_adjacent
      (0 :: ((List.range' 1 (segments.length - 1)).filter
        (breakpoint_at sim segments) ++ [segments.length]))

/-! ### The candidate dictionary -/

/-- A `trim_suggestion` record returned by the LLM (arbitrary JSON object;
a missing or null numeric field is `none`, matching `trim.get(...)`). -/
structure TrimSuggestion where
  start_offset_sec : Option ℚ := none
  end_offset_sec : Option ℚ := none
  deriving DecidableEq

/-- The transient candidate dict built by `_build_candidates` and enriched
downstream.  Keys the code sets later start at the value the code's
`setdefault`/branch structure guarantees before any read. -/
structure Candidate where
  start_ms : ℤ
  end_ms : ℤ
  start_idx : ℕ
  end_idx : ℕ
  heuristic_score : ℚ
  heuristic_rationale : String
  text : String
  hook_score : ℚ
  gap_ms : ℤ
  start_clean : Bool
  end_clean : Bool
  embedding : Option Vec := none
  segment_type : Option String := none
  type_score : ℚ := 1
  type_similarity : ℚ := 0
  candidate_id : String := ""
  approx_duration_sec : ℤ := 0
  llm_score : ℚ := 0
  llm_reason : String := ""
  llm_trim : Option TrimSuggestion := none
  llm_trim_confidence : Option ℚ := none
  trim_applied : Bool := false
  heuristic_scaled : ℚ := 0
  score : ℚ := 0
  rationale : String := ""
  use_llm : Bool := false
  deriving DecidableEq

instance : Inhabited Candidate :=
  ⟨{ start_ms := 0, end_ms := 0, start_idx := 0, end_idx := 0,
     heuristic_score := 0, heuristic_rationale := "", text := "",
     hook_score := 0, gap_ms := 0, start_clean := false, end_clean := false }⟩

/-! ### The candidate builder -/

/-- The inner loop of `_build_candidates`
(`for end_idx in range(start_idx, window_end)`), one constructor case per
iteration; `fuel` counts the remaining iterations (`window_end - end_idx`),
so the call for a window passes `window_end - start_idx`.  State threaded
exactly as in the source: `text_parts`, `gap_ms`, `prev_end`.
`duration > MAX_CLIP_MS` is the `break`. -/
def build_inner (segments : List TranscriptSegment) (strict_end : Bool)
    (total start_idx : ℕ) (start_ms : ℤ) (start_clean : Bool) :
    ℕ → ℕ → List String → ℤ → ℤ → List Candidate
  | 0, _, _, _, _ => []
  | fuel + 1, end_idx, text_parts, gap_ms, prev_end =>
    let segment := segments.getD end_idx default
    let gap := max 0 (segment.start_ms - prev_end)
    let gap_ms' := if end_idx > start_idx then
        (if gap > LONG_GAP_MS then gap_ms + gap else gap_ms) else gap_ms
    let prev_end' := if end_idx > start_idx then segment.end_ms else prev_end
    let text_parts' := text_parts ++ [segment.text]
    let end_ms := segment.end_ms
    let duration := end_ms - start_ms
    let next := build_inner segments strict_end total start_idx start_ms start_clean
      fuel (end_idx + 1) text_parts' gap_ms' prev_end'
    if duration < MIN_CLIP_MS then next
    else if duration > MAX_CLIP_MS then []
    else
      let text := (pyStrip (joinSpace text_parts').data).asString
      if text = "" then next
      else
        let next_gap_ms : Option ℤ :=
          if end_idx + 1 < total then
            some (max 0 ((segments.getD (end_idx + 1) default).start_ms - segment.end_ms))
          else none
        let end_clean := is_clean_end next_gap_ms segment.text
        if strict_end && !end_clean then next
        else
          let scored := score_candidate text gap_ms' start_clean end_clean
          { start_ms := start_ms, end_ms := end_ms,
            start_idx := start_idx, end_idx := end_idx,
            heuristic_score := scored.1, heuristic_rationale := scored.2.1,
            text := text, hook_score := scored.2.2, gap_ms := gap_ms',
            start_clean := start_clean, end_clean := end_clean } :: next

/-- One `start_idx` iteration of the outer loop of `_build_candidates`. -/
def build_for_start (segments : List TranscriptSegment) (strict_end : Bool)
    (total window_end start_idx : ℕ) : List Candidate :=
  let start_segment := segments.getD start_idx default
  let start_ms := start_segment.start_ms
  let prev_gap_ms : Option ℤ :=
    if start_idx > 0 then
      some (max 0 (start_ms - (segments.getD (start_idx - 1) default).end_ms))
    else none
  let start_clean := is_clean_start prev_gap_ms start_segment.text
  build_inner segments strict_end total start_idx start_ms start_clean
    (window_end - start_idx) start_idx [] 0 start_segment.end_ms

/-- `_build_candidates` from tasks.py: windows are consecutive breakpoint
pairs (`zip(breakpoints, breakpoints[1:])`); an empty or missing
breakpoint list defaults to `[0, total]`. -/
def build_candidates (segments : List TranscriptSegment) (strict_end : Bool)
    (breakpoints : List ℕ) : List Candidate :=
  let total := segments.length
  let bps := if breakpoints.isEmpty then [0, total] else breakpoints
  (bps.zip bps.tail).flatMap fun w =>
    if w.1 ≥ w.2 then []
    else (List.range' w.1 (w.2 - w.1)).flatMap fun start_idx =>
      build_for_start segments strict_end total w.2 start_idx

/-! ### Overlap ratio and the overlap deduper -/

/-- The source's `_overlap_ratio`: `overlap / min(a_len, b_len)` as a
rational, `0` when there is no positive overlap or a non-positive
length. -/
def overlap_frac (a_start a_end b_start b_end : ℤ) : ℚ :=
  let overlap := max 0 (min a_end b_end - max a_start b_start)
  if overlap ≤ 0 then 0
  else
    let a_len := a_end - a_start
    let b_len := b_end - b_start
    if a_len ≤ 0 ∨ b_len ≤ 0 then 0
    else (overlap : ℚ) / ((min a_len b_len : ℤ) : ℚ)

/-- The loop of `_dedupe_candidates`, with the accumulated `selected`. -/
def dedupe_go (selected : List Candidate) : List Candidate → List Candidate
  | [] => []
  | c :: cs =>
    if selected.any (fun chosen =>
        overlap_frac c.start_ms c.end_ms chosen.start_ms chosen.end_ms > 6/10) then
      dedupe_go selected cs
    else c :: dedupe_go (selected ++ [c]) cs

/-- `_dedupe_candidates` from tasks.py: greedily keep a candidate unless it
overlaps an already kept one by more than `0.6`. -/
def dedupe_candidates (candidates : List Candidate) : List Candidate :=
  dedupe_go [] candidates

/-! ### Stable descending sort (`list.sort(key=…, reverse=True)`) -/

/-- Insert `a` after every element of equal-or-higher key (stability). -/
def insert_desc (key : Candidate → ℚ) (a : Candidate) :
    List Candidate → List Candidate
  | [] => [a]
  | b :: bs => if key b < key a then a :: b :: bs else b :: insert_desc key a bs

/-- Stable sort by a rational key, descending: elements are inserted left
to right, each after all previously placed elements of no smaller key —
exactly the order CPython's stable `sort(..., reverse=True)` produces. -/
def sort_by_key_desc (key : Candidate → ℚ) (l : List Candidate) : List Candidate :=
  l.foldl (fun acc a => insert_desc key a acc) []

/-! ### Heuristic score scaling and score fusion -/

/-- Python `min(values)` over a non-empty list (`0` never arises: the
caller guards emptiness). -/
def listMin : List ℚ → ℚ
  | [] => 0
  | x :: xs => xs.foldl min x

/-- Python `max(values)` over a non-empty list. -/
def listMax : List ℚ → ℚ
  | [] => 0
  | x :: xs => xs.foldl max x

/-- `_scale_heuristic_scores` from tasks.py: constant `50` when the range
is below `1e-6`, else a linear rescale of `heuristic_score` to `[0,100]`. -/
def scale_heuristic_scores (candidates : List Candidate) : List Candidate :=
  if candidates.isEmpty then candidates
  else
    let values := candidates.map (·.heuristic_score)
    let min_score := listMin values
    let max_score := listMax values
    if |max_score - min_score| < 1/1000000 then
      candidates.map fun c => { c with heuristic_scaled := 50 }
    else
      candidates.map fun c =>
        { c with heuristic_scaled :=
            (c.heuristic_score - min_score) / (max_score - min_score) * 100 }

/-- The body of the `if llm_used` loop of `suggest_clips` (lines 871-882):
fuse the scaled heuristic score with the LLM score and prefer the LLM
reason when non-empty (`llm_reason or heuristic_rationale`); the three
`setdefault` calls are no-ops on the structure's defaulted fields. -/
def fuse_candidate (c : Candidate) : Candidate :=
  { c with
    score := HEURISTIC_SCORE_WEIGHT * c.heuristic_scaled + LLM_SCORE_WEIGHT * c.llm_score,
    rationale := if c.llm_reason ≠ "" then c.llm_reason else c.heuristic_rationale,
    use_llm := true }

/-- The body of the `else` loop of `suggest_clips` (lines 883-890): the
heuristic score and rationale pass through unchanged. -/
def assign_heuristic (c : Candidate) : Candidate :=
  { c with
    score := c.heuristic_score,
    rationale := c.heuristic_rationale,
    use_llm := false,
    llm_trim := none,
    llm_trim_confidence := none,
    trim_applied := false }

/-! ### The LLM scoring path -/

/-- One validated item of the `clips` list built by
`score_clip_candidates` in deepseek_client.py: id non-empty, score
coerced and clamped, reason a string, trim record optional. -/
structure ScoredItem where
  id : String
  score : ℚ
  reason : String
  trim_suggestion : Option TrimSuggestion := none
  trim_confidence : Option ℚ := none
  deriving DecidableEq

/-- How `_score_candidates_with_llm` can raise: `unavailable` is
`DeepseekClientError` (caught by `suggest_clips` and downgraded),
`type_error` is the uncaught Python `TypeError`. -/
inductive LLMFailure where
  | unavailable
  | type_error
  deriving DecidableEq

/-- The id/duration assignment loop heading `_score_candidates_with_llm`
(`candidate_id = f"c{index}"`, 1-based;
`approx_duration_sec = max(1, int(round((end_ms - start_ms) / 1000.0)))`). -/
def with_ids_go (index : ℕ) : List Candidate → List Candidate
  | [] => []
  | c :: cs =>
    { c with candidate_id := "c" ++ toString index,
             approx_duration_sec :=
               max 1 (pyRound (((c.end_ms - c.start_ms : ℤ) : ℚ) / 1000)) }
      :: with_ids_go (index + 1) cs

/-- `_score_candidates_with_llm` from tasks.py, with the client call as a
parameter: `client = .error ()` stands for any `DeepseekClientError`
raised inside `score_clip_candidates` (network error, HTTP ≥ 300, invalid
JSON, missing choices/content, no usable scores), and `client = .ok clips`
for a normal return, whose actual Python value is the dict
`{"clips": clips, "token_usage": …}`.  The task then runs
`result_map = {item["id"]: item for item in results}`: iterating that dict
yields its *keys* (the strings `"clips"` and `"token_usage"`), so
`item["id"]` indexes a `str` with a `str` and raises `TypeError` — the
incomplete-scores guard and the annotation loop below it are unreachable.
`TypeError` is not a `DeepseekClientError`, so it escapes the caller's
`except` clause. -/
def score_candidates_with_llm (candidates : List Candidate)
    (client : Except Unit (List ScoredItem)) :
    Except LLMFailure (List Candidate) :=
  let _annotated := with_ids_go 1 candidates
  match client with
  | .error _ => .error .unavailable
  | .ok _clips => .error .type_error

/-! ### The trim applier -/

/-- One iteration of `_apply_trim_suggestions` from tasks.py.  Every
`continue` returns the candidate unchanged; the two early-confidence exits
set `trim_applied = False` explicitly.  Python's
`float(start_offset or 0)` / `float(end_offset or 0)` on a missing or
null offset is `0` (a non-numeric offset raises inside `try` and lands on
the same `continue`, so `Option ℚ` with `getD 0` is observationally
exact); the start offset is clamped by `max(0.0, ·)` and the end offset
passed through `abs`.  `start_idx < 0` cannot arise over `ℕ`. -/
def apply_trim_one (segments : List TranscriptSegment) (c : Candidate) : Candidate :=
  let total := segments.length
  match c.llm_trim with
  | none => c
  | some trim =>
    match c.llm_trim_confidence with
    | none => { c with trim_applied := false }
    | some conf =>
      if conf < LLM_TRIM_CONFIDENCE_MIN then { c with trim_applied := false }
      else
        let start_offset_sec := max 0 (trim.start_offset_sec.getD 0)
        let end_offset_sec := |trim.end_offset_sec.getD 0|
        if start_offset_sec ≤ 0 ∧ end_offset_sec ≤ 0 then c
        else if c.end_idx ≥ total ∨ c.start_idx > c.end_idx then c
        else
          let new_start_ms := c.start_ms + pyRound (start_offset_sec * 1000)
          let new_end_ms := c.end_ms - pyRound (end_offset_sec * 1000)
          if new_end_ms ≤ new_start_ms then c
          else
            match (List.range' c.start_idx (c.end_idx - c.start_idx + 1)).find?
                (fun idx => (segments.getD idx default).end_ms ≥ new_start_ms) with
            | none => c
            | some new_start_idx =>
              match ((List.range' new_start_idx (c.end_idx - new_start_idx + 1)).reverse).find?
                  (fun idx => (segments.getD idx default).start_ms ≤ new_end_ms) with
              | none => c
              | some new_end_idx =>
                if new_end_idx < new_start_idx then c
                else
                  let adjusted_start_ms := (segments.getD new_start_idx default).start_ms
                  let adjusted_end_ms := (segments.getD new_end_idx default).end_ms
                  let duration_ms := adjusted_end_ms - adjusted_start_ms
                  if duration_ms < MIN_CLIP_MS ∨ duration_ms > MAX_CLIP_MS then c
                  else
                    { c with start_ms := adjusted_start_ms, end_ms := adjusted_end_ms,
                             start_idx := new_start_idx, end_idx := new_end_idx,
                             trim_applied := true }

/-- `_apply_trim_suggestions` from tasks.py maps `apply_trim_one` over the
candidate list (each iteration only mutates its own dict). -/
def apply_trim_suggestions (segments : List TranscriptSegment)
    (candidates : List Candidate) : List Candidate :=
  candidates.map (apply_trim_one segments)

/-! ### Semantic classification, scoring and dedupe -/

/-- `_classify_segment_type` from tasks.py: best cosine similarity against
the reference embeddings (`type_vectors`, the externally encoded
`SEMANTIC_TYPE_EXAMPLES` in dict insertion order), starting from
`("exposition", -1.0)` and updating on strict improvement. -/
def classify_segment_type (type_vectors : List (String × Vec))
    (sim : Vec → Vec → ℚ) (embedding : Vec) : String × ℚ :=
  type_vectors.foldl
    (fun best p => let s := sim embedding p.2; if s > best.2 then (p.1, s) else best)
    ("exposition", -1)

/-- `_score_by_type` from tasks.py: `SEMANTIC_TYPE_SCORES.get(t, 1.0)`. -/
def score_by_type (segment_type : String) : ℚ :=
  match SEMANTIC_TYPE_SCORES.find? (fun p => p.1 = segment_type) with
  | some p => p.2
  | none => 1

/-- One iteration of `_apply_semantic_scoring` from tasks.py
(`start_idx`/`end_idx` are always present on the structure): attach the
centroid, classify it, multiply the heuristic score by the type score and
suffix the rationale. -/
def apply_semantic_one (type_vectors : List (String × Vec)) (sim : Vec → Vec → ℚ)
    (psum : Option (List Vec)) (c : Candidate) : Candidate :=
  match candidate_embedding psum c.start_idx c.end_idx with
  | none => c
  | some embedding =>
    let classified := classify_segment_type type_vectors sim embedding
    let type_score := score_by_type classified.1
    { c with embedding := some embedding,
             segment_type := some classified.1,
             type_score := type_score,
             type_similarity := classified.2,
             heuristic_score := c.heuristic_score * type_score,
             heuristic_rationale := c.heuristic_rationale ++ "; type=" ++ classified.1 }

/-- The loop of `_semantic_dedupe_candidates` from tasks.py: `index` is
the position in the input; past `SEMANTIC_DEDUPE_MAX` the remainder is
appended wholesale; a candidate without an embedding bypasses the check
and contributes no embedding to the retained set. -/
def semantic_dedupe_go (sim : Vec → Vec → ℚ) (index : ℕ)
    (selected_embeddings : List Vec) : List Candidate → List Candidate
  | [] => []
  | c :: cs =>
    if index ≥ SEMANTIC_DEDUPE_MAX then c :: cs
    else
      match c.embedding with
      | none => c :: semantic_dedupe_go sim (index + 1) selected_embeddings cs
      | some e =>
        if selected_embeddings.any (fun chosen => sim e chosen ≥ SEMANTIC_DEDUPE_SIMILARITY)
        then semantic_dedupe_go sim (index + 1) selected_embeddings cs
        else c :: semantic_dedupe_go sim (index + 1) (selected_embeddings ++ [e]) cs

/-- `_semantic_dedupe_candidates` from tasks.py. -/
def semantic_dedupe_candidates (sim : Vec → Vec → ℚ)
    (candidates : List Candidate) : List Candidate :=
  semantic_dedupe_go sim 0 [] candidates

/-! ### The `suggest_clips` pipeline -/

/-- The candidate-construction phase of `suggest_clips` (lines 812-843):
embedding attachment (`embeddings_ready` iff every segment carries one),
breakpoints, the four-step fallback chain of `_build_candidates`, and —
when the prefix exists and candidates are non-empty — the in-place
heuristic-descending sort followed by semantic scoring of the first
`SEMANTIC_TYPE_MAX` entries. -/
def prepared_candidates (type_vectors : List (String × Vec)) (sim : Vec → Vec → ℚ)
    (segments : List TranscriptSegment) : List Candidate :=
  let embeddings_ready := segments.all (·.embedding.isSome)
  let psum := if embeddings_ready then build_embedding_psum segments else none
  let breakpoints := find_breakpoints sim segments
  let c1 := build_candidates segments true breakpoints
  let c2 := if c1.isEmpty then build_candidates segments false breakpoints else c1
  let c3 :=
    if c2.isEmpty ∧ breakpoints ≠ [0, segments.length] then
      let a := build_candidates segments true [0, segments.length]
      if a.isEmpty then build_candidates segments false [0, segments.length] else a
    else c2
  match psum with
  | none => c3
  | some _ =>
    if c3.isEmpty then c3
    else
      let sorted := sort_by_key_desc (·.heuristic_score) c3
      (sorted.take SEMANTIC_TYPE_MAX).map (apply_semantic_one type_vectors sim psum)
        ++ sorted.drop SEMANTIC_TYPE_MAX

/-- The top candidates submitted to the LLM:
`sorted(all_candidates, key=heuristic_score, reverse=True)[:LLM_MAX_CANDIDATES]`. -/
def llm_top (type_vectors : List (String × Vec)) (sim : Vec → Vec → ℚ)
    (segments : List TranscriptSegment) : List Candidate :=
  (sort_by_key_desc (·.heuristic_score)
    (prepared_candidates type_vectors sim segments)).take LLM_MAX_CANDIDATES

/-- The value `suggest_clips` returns. -/
inductive TaskReturn where
  | deleted
  | done (suggestions : ℕ)
  deriving DecidableEq

/-- The fields of a `Clip` row inserted by the persistence step (besides
the constants `source=auto`, `status=pending` and the sermon id). -/
structure ClipRow where
  start_ms : ℤ
  end_ms : ℤ
  score : ℚ
  rationale : String
  use_llm : Bool
  llm_trim : Option TrimSuggestion
  llm_trim_confidence : Option ℚ
  trim_applied : Bool
  deriving DecidableEq

/-- `Clip(...)` constructor arguments taken from a candidate. -/
def to_clip_row (c : Candidate) : ClipRow :=
  { start_ms := c.start_ms, end_ms := c.end_ms, score := c.score,
    rationale := c.rationale, use_llm := c.use_llm, llm_trim := c.llm_trim,
    llm_trim_confidence := c.llm_trim_confidence, trim_applied := c.trim_applied }

/-- The observable outcome of one (non-raising) run of `suggest_clips`:
its return value, the clip rows inserted and committed by the persistence
step, and whether the sermon status was then set to `suggested`
(`marked_suggested = false` when the post-commit re-read saw the sermon
soft-deleted and the task returned early). -/
structure RunResult where
  return_value : TaskReturn
  inserted_rows : List ClipRow
  marked_suggested : Bool
  deriving DecidableEq

/-- The tail of `suggest_clips` after the scoring phase (lines 868-949):
fusion or heuristic assignment, rank, overlap dedupe, re-rank, semantic
dedupe, truncation to `MAX_SUGGESTIONS`, then the persistence commit, the
sermon re-read (`deleted_at_refresh`), and the return value. -/
def finish_run (sim : Vec → Vec → ℚ) (segments : List TranscriptSegment)
    (cands : List Candidate) (llm_used : Bool) (deleted_at_refresh : Bool) :
    RunResult :=
  let fused :=
    if llm_used then
      (apply_trim_suggestions segments (scale_heuristic_scores cands)).map
        fuse_candidate
    else cands.map assign_heuristic
  let ranked := sort_by_key_desc (·.score) fused
  let deduped := dedupe_candidates ranked
  let reranked := sort_by_key_desc (·.score) deduped
  let sem := semantic_dedupe_candidates sim reranked
  let final := sem.take MAX_SUGGESTIONS
  { return_value := if deleted_at_refresh then .deleted else .done final.length,
    inserted_rows := final.map to_clip_row,
    marked_suggested := !deleted_at_refresh }

/-- The body of `suggest_clips` (lines 800-949) after the sermon row was
loaded live (not soft-deleted) at entry, as a function of: the reference
type vectors and the cosine oracle, the loaded segments, the effective
`use_llm` flag, the outcome of the Deepseek client call, and whether the
re-read after the persistence commit sees `deleted_at` non-null.  A
`.error` value is an exception reaching the task's generic handler, which
rolls back any uncommitted work and sets the sermon status to `error`
(`ValueError` for an empty transcript or an empty candidate set,
`TypeError` from `_score_candidates_with_llm` on a non-exceptional client
return).  `DeepseekClientError` alone is caught and downgrades to the
heuristic path.  Note the order of the tail: the soft-delete-and-insert
is committed *before* the sermon row is re-read, so `inserted_rows` is
the same whether or not the task then returns the `deleted` marker. -/
def suggest_clips_core (type_vectors : List (String × Vec)) (sim : Vec → Vec → ℚ)
    (segments : List TranscriptSegment) (use_llm : Bool)
    (client : Except Unit (List ScoredItem)) (deleted_at_refresh : Bool) :
    Except String RunResult :=
  if segments.isEmpty then .error "No transcript segments available"
  else
    let all_candidates := prepared_candidates type_vectors sim segments
    if all_candidates.isEmpty then .error "No candidate clips generated"
    else
      let phase : Except String (List Candidate × Bool) :=
        if use_llm then
          match score_candidates_with_llm (llm_top type_vectors sim segments) client with
          | .ok annotated => .ok (annotated, true)
          | .error .unavailable => .ok (all_candidates, false)
          | .error .type_error => .error "TypeError"
        else .ok (all_candidates, false)
      match phase with
      | .error e => .error e
      | .ok scored => .ok (finish_run sim segments scored.1 scored.2 deleted_at_refresh)

deriving instance DecidableEq for Except

/-! ### Helper lemmas on `overlap_frac` -/

/-- Canonical form of `overlap_frac`: one guard, one quotient. -/
theorem overlap_frac_eq (a_start a_end b_start b_end : ℤ) :
    overlap_frac a_start a_end b_start b_end =
      if 0 < min a_end b_end - max a_start b_start ∧
         0 < a_end - a_start ∧ 0 < b_end - b_start then
        ((min a_end b_end - max a_start b_start : ℤ) : ℚ) /
          ((min (a_end - a_start) (b_end - b_start) : ℤ) : ℚ)
      else 0 := by
  unfold overlap_frac
  dsimp only
  rcases le_or_lt (min a_end b_end - max a_start b_start) 0 with hov | hov
  · rw [if_pos (max_le (le_refl 0) hov),
      if_neg (fun h => absurd h.1 (not_lt.mpr hov))]
  · rw [if_neg (by rw [max_eq_right (le_of_lt hov)]; exact not_le.mpr hov)]
    by_cases hlen : a_end - a_start ≤ 0 ∨ b_end - b_start ≤ 0
    · rw [if_pos hlen, if_neg]
      rintro ⟨-, ha, hb⟩
      rcases hlen with h | h
      · exact absurd ha (not_lt.mpr h)
      · exact absurd hb (not_lt.mpr h)
    · push_neg at hlen
      rw [if_neg (by rw [not_or]; exact ⟨not_le.mpr hlen.1, not_le.mpr hlen.2⟩),
        if_pos ⟨hov, hlen.1, hlen.2⟩, max_eq_right (le_of_lt hov)]

theorem overlap_frac_comm (a_start a_end b_start b_end : ℤ) :
    overlap_frac a_start a_end b_start b_end =
      overlap_frac b_start b_end a_start a_end := by
  rw [overlap_frac_eq, overlap_frac_eq, min_comm b_end a_end,
    max_comm b_start a_start, min_comm (b_end - b_start) (a_end - a_start)]
  congr 1
  rw [and_comm (a := 0 < a_end - a_start)]

theorem overlap_frac_nonneg (a_start a_end b_start b_end : ℤ) :
    0 ≤ overlap_frac a_start a_end b_start b_end := by
  rw [overlap_frac_eq]
  split_ifs with h
  · apply div_nonneg
    · exact_mod_cast le_of_lt h.1
    · exact_mod_cast le_of_lt (lt_min h.2.1 h.2.2)
  · exact le_refl 0

theorem overlap_frac_le_one (a_start a_end b_start b_end : ℤ) :
    overlap_frac a_start a_end b_start b_end ≤ 1 := by
  rw [overlap_frac_eq]
  split_ifs with h
  · have hmin : (0 : ℤ) < min (a_end - a_start) (b_end - b_start) :=
      lt_min h.2.1 h.2.2
    rw [div_le_one (by exact_mod_cast hmin)]
    have h1 : min a_end b_end - max a_start b_start ≤ a_end - a_start :=
      sub_le_sub (min_le_left _ _) (le_max_left _ _)
    have h2 : min a_end b_end - max a_start b_start ≤ b_end - b_start :=
      sub_le_sub (min_le_right _ _) (le_max_right _ _)
    exact_mod_cast le_min h1 h2
  · exact zero_le_one

theorem overlap_frac_zero_of (a_start a_end b_start b_end : ℤ)
    (h : min a_end b_end - max a_start b_start ≤ 0 ∨
      a_end - a_start ≤ 0 ∨ b_end - b_start ≤ 0) :
    overlap_frac a_start a_end b_start b_end = 0 := by
  rw [overlap_frac_eq]
  rw [if_neg]
  rintro ⟨h1, h2, h3⟩
  rcases h with h | h | h
  · exact absurd h1 (not_lt.mpr h)
  · exact absurd h2 (not_lt.mpr h)
  · exact absurd h3 (not_lt.mpr h)

/-- C10: `_overlap_ratio` is symmetric in its two intervals, its value
always lies in `[0, 1]`, and it is `0` whenever the intervals do not
positively overlap or either interval has non-positive length. -/
theorem overlap_frac_spec (a_start a_end b_start b_end : ℤ) :
    overlap_frac a_start a_end b_start b_end =
      overlap_frac b_start b_end a_start a_end ∧
    0 ≤ overlap_frac a_start a_end b_start b_end ∧
    overlap_frac a_start a_end b_start b_end ≤ 1 ∧
    (min a_end b_end - max a_start b_start ≤ 0 ∨
        a_end - a_start ≤ 0 ∨ b_end - b_start ≤ 0 →
      overlap_frac a_start a_end b_start b_end = 0) :=
  ⟨overlap_frac_comm _ _ _ _, overlap_frac_nonneg _ _ _ _,
   overlap_frac_le_one _ _ _ _, overlap_frac_zero_of _ _ _ _⟩

/-- C10 witness: the theorem applied at the spec's concrete intervals
`[0,40000]` and `[10000,45000]` (with the zero case at the touching
intervals `[0,10]`, `[10,20]`). -/
theorem overlap_frac_spec_witness :
    overlap_frac 0 40000 10000 45000 = overlap_frac 10000 45000 0 40000 ∧
    overlap_frac 0 10 10 20 = 0 := by
  refine ⟨(overlap_frac_spec 0 40000 10000 45000).1, ?_⟩
  exact (overlap_frac_spec 0 10 10 20).2.2.2 (by decide)

/-! ### The overlap deduper (C7) -/

/-- Invariant of the `_dedupe_candidates` loop: every output element
overlaps every element of `selected` by at most `0.6`, and the output is
pairwise so bounded (later vs earlier orientation, as checked). -/
theorem dedupe_go_spec (cs : List Candidate) : ∀ sel : List Candidate,
    (∀ b ∈ dedupe_go sel cs, ∀ a ∈ sel,
      overlap_frac b.start_ms b.end_ms a.start_ms a.end_ms ≤ 6/10) ∧
    List.Pairwise
      (fun a b => overlap_frac b.start_ms b.end_ms a.start_ms a.end_ms ≤ 6/10)
      (dedupe_go sel cs) := by
  induction cs with
  | nil => intro sel; simp [dedupe_go]
  | cons c cs ih =>
    intro sel
    by_cases hdup : sel.any (fun chosen =>
        overlap_frac c.start_ms c.end_ms chosen.start_ms chosen.end_ms > 6/10)
    · rw [show dedupe_go sel (c :: cs) = dedupe_go sel cs by
        simp [dedupe_go, hdup]]
      exact ih sel
    · rw [show dedupe_go sel (c :: cs) = c :: dedupe_go (sel ++ [c]) cs by
        simp only [dedupe_go, hdup]; rw [if_neg (by simp [hdup])]]
      have hc : ∀ a ∈ sel,
          overlap_frac c.start_ms c.end_ms a.start_ms a.end_ms ≤ 6/10 := by
        intro a ha
        have := (List.any_eq_true.not.mp hdup)
        push_neg at this
        exact not_lt.mp (by simpa using this a ha)
      constructor
      · intro b hb a ha
        rcases List.mem_cons.mp hb with rfl | hb
        · exact hc a ha
        · exact ((ih (sel ++ [c])).1 b hb a (List.mem_append_left _ ha))
      · constructor
        · intro b hb
          exact ((ih (sel ++ [c])).1 b hb c (List.mem_append_right _ (by simp)))
        · exact (ih (sel ++ [c])).2

/-- The spec's worked deduper example, higher-scoring candidate. -/
def cand_a : Candidate :=
  { start_ms := 0, end_ms := 40000, start_idx := 0, end_idx := 0,
    heuristic_score := 80, heuristic_rationale := "", text := "a",
    hook_score := 0, gap_ms := 0, start_clean := true, end_clean := true,
    score := 80 }

/-- The spec's worked deduper example, lower-scoring candidate. -/
def cand_b : Candidate :=
  { start_ms := 10000, end_ms := 45000, start_idx := 0, end_idx := 0,
    heuristic_score := 78, heuristic_rationale := "", text := "b",
    hook_score := 0, gap_ms := 0, start_clean := true, end_clean := true,
    score := 78 }

/-- A candidate disjoint from `cand_a` (the acceptance side of the greedy
deduper: overlap ratio `0 ≤ 0.6`, so it is kept). -/
def cand_c : Candidate :=
  { start_ms := 60000, end_ms := 95000, start_idx := 0, end_idx := 0,
    heuristic_score := 70, heuristic_rationale := "", text := "c",
    hook_score := 0, gap_ms := 0, start_clean := true, end_clean := true,
    score := 70 }

/-- C7: the overlap deduper greedily keeps a candidate only if its overlap
ratio with every previously kept one is at most `0.6`, so any two kept
candidates overlap by at most `0.6`; on the spec's example — `[0,40000]`
(score 80) before `[10000,45000]` (score 78) — the ratio is
`30000/35000 > 0.6` and the lower-scoring candidate is dropped, while a
candidate not exceeding the threshold against any kept one (the disjoint
`[60000,95000]`) is accepted. -/
theorem dedupe_candidates_spec :
    (∀ cs : List Candidate, List.Pairwise
      (fun a b => overlap_frac a.start_ms a.end_ms b.start_ms b.end_ms ≤ 6/10)
      (dedupe_candidates cs)) ∧
    overlap_frac 0 40000 10000 45000 = 30000/35000 ∧
    ((30000 : ℚ)/35000 > 6/10) ∧
    dedupe_candidates [cand_a, cand_b] = [cand_a] ∧
    dedupe_candidates [cand_a, cand_c] = [cand_a, cand_c] := by
  refine ⟨fun cs => ?_, by decide, by decide, by decide, by decide⟩
  exact ((dedupe_go_spec cs []).2).imp
    (fun h => by rw [overlap_frac_comm]; exact h)

/-! ### Duration bounds (C3) -/

/-- Every candidate emitted by the inner loop satisfies the duration
window: the emit branch is guarded by `¬ duration < MIN_CLIP_MS` and
`¬ duration > MAX_CLIP_MS`. -/
theorem build_inner_bounds (segments : List TranscriptSegment) (strict_end : Bool)
    (total start_idx : ℕ) (start_ms : ℤ) (start_clean : Bool) :
    ∀ (fuel end_idx : ℕ) (text_parts : List String) (gap_ms prev_end : ℤ),
      ∀ c ∈ build_inner segments strict_end total start_idx start_ms start_clean
          fuel end_idx text_parts gap_ms prev_end,
        MIN_CLIP_MS ≤ c.end_ms - c.start_ms ∧ c.end_ms - c.start_ms ≤ MAX_CLIP_MS := by
  intro fuel
  induction fuel with
  | zero => intro end_idx tp gm pe c hc; simp [build_inner] at hc
  | succ fuel ih =>
    intro end_idx tp gm pe c hc
    rw [build_inner] at hc
    dsimp only at hc
    split_ifs at hc <;>
      first
        | exact ih _ _ _ _ c hc
        | exact absurd hc (List.not_mem_nil c)
        | (rcases List.mem_cons.mp hc with rfl | hc
           exacts [⟨not_lt.mp (by assumption), not_lt.mp (by assumption)⟩,
             ih _ _ _ _ c hc])

/-- C3, builder part: every candidate of `_build_candidates` has duration
in `[MIN_CLIP_MS, MAX_CLIP_MS]`, for any segments, flag and breakpoints. -/
theorem build_candidates_bounds (segments : List TranscriptSegment)
    (strict_end : Bool) (breakpoints : List ℕ) :
    ∀ c ∈ build_candidates segments strict_end breakpoints,
      MIN_CLIP_MS ≤ c.end_ms - c.start_ms ∧ c.end_ms - c.start_ms ≤ MAX_CLIP_MS := by
  intro c hc
  unfold build_candidates at hc
  dsimp only at hc
  rw [List.mem_flatMap] at hc
  obtain ⟨w, -, hc⟩ := hc
  split_ifs at hc with hw
  · simp at hc
  · rw [List.mem_flatMap] at hc
    obtain ⟨s, -, hc⟩ := hc
    exact build_inner_bounds segments strict_end _ s _ _ _ _ _ _ _ c hc

/-- The trim applier only changes fields other than the bounds, or
rewrites the bounds after checking the snapped duration against the same
window, so it preserves the duration bounds. -/
theorem apply_trim_one_bounds (segments : List TranscriptSegment) (c : Candidate)
    (h1 : MIN_CLIP_MS ≤ c.end_ms - c.start_ms)
    (h2 : c.end_ms - c.start_ms ≤ MAX_CLIP_MS) :
    MIN_CLIP_MS ≤ (apply_trim_one segments c).end_ms -
        (apply_trim_one segments c).start_ms ∧
      (apply_trim_one segments c).end_ms -
        (apply_trim_one segments c).start_ms ≤ MAX_CLIP_MS := by
  unfold apply_trim_one
  dsimp only
  repeat' split
  all_goals try exact ⟨h1, h2⟩
  rename_i hdur
  rw [not_or] at hdur
  exact ⟨not_lt.mp hdur.1, not_lt.mp hdur.2⟩

/-- C3: every candidate emitted by `_build_candidates` — for any segments,
`strict_end` flag and breakpoint list — has
`MIN_CLIP_MS ≤ end_ms - start_ms ≤ MAX_CLIP_MS`, and the bound is
preserved by the trim applier (a trim whose snapped duration would leave
the window is rejected, leaving the candidate's bounds unchanged). -/
theorem candidate_duration_invariant :
    (∀ (segments : List TranscriptSegment) (strict_end : Bool)
        (breakpoints : List ℕ),
      ∀ c ∈ build_candidates segments strict_end breakpoints,
        MIN_CLIP_MS ≤ c.end_ms - c.start_ms ∧ c.end_ms - c.start_ms ≤ MAX_CLIP_MS) ∧
    (∀ (segments : List TranscriptSegment) (c : Candidate),
      MIN_CLIP_MS ≤ c.end_ms - c.start_ms → c.end_ms - c.start_ms ≤ MAX_CLIP_MS →
        ∀ c' ∈ apply_trim_suggestions segments [c],
          MIN_CLIP_MS ≤ c'.end_ms - c'.start_ms ∧
            c'.end_ms - c'.start_ms ≤ MAX_CLIP_MS) := by
  refine ⟨build_candidates_bounds, fun segments c h1 h2 c' hc' => ?_⟩
  simp only [apply_trim_suggestions, List.map_cons, List.map_nil,
    List.mem_singleton] at hc'
  subst hc'
  exact apply_trim_one_bounds segments c h1 h2

/-! ### `find?` over index ranges (snap characterization helpers) -/

theorem find?_range'_spec (p : ℕ → Bool) :
    ∀ (n a i : ℕ), (List.range' a n).find? p = some i →
      a ≤ i ∧ i < a + n ∧ p i = true ∧ ∀ k, a ≤ k → k < i → p k = false := by
  intro n
  induction n with
  | zero => intro a i h; simp [List.range'] at h
  | succ n ih =>
    intro a i h
    rw [List.range'] at h
    rw [List.find?] at h
    rcases hpa : p a with _ | _
    · rw [hpa] at h
      dsimp at h
      obtain ⟨h1, h2, h3, h4⟩ := ih (a + 1) i h
      refine ⟨by omega, by omega, h3, fun k hk1 hk2 => ?_⟩
      rcases Nat.eq_or_lt_of_le hk1 with rfl | hk
      · exact hpa
      · exact h4 k hk hk2
    · rw [hpa] at h
      dsimp at h
      obtain rfl := Option.some.inj h
      exact ⟨le_refl a, by omega, hpa, fun k hk1 hk2 => absurd hk1 (by omega)⟩

theorem find?_reverse_range'_spec (p : ℕ → Bool) :
    ∀ (n a j : ℕ), ((List.range' a n).reverse).find? p = some j →
      a ≤ j ∧ j < a + n ∧ p j = true ∧ ∀ k, j < k → k < a + n → p k = false := by
  intro n
  induction n with
  | zero => intro a j h; simp [List.range'] at h
  | succ n ih =>
    intro a j h
    rw [List.range'_concat, List.reverse_append, List.reverse_singleton,
      List.singleton_append, List.find?, one_mul] at h
    rcases hpa : p (a + n) with _ | _
    · rw [hpa] at h
      dsimp at h
      obtain ⟨h1, h2, h3, h4⟩ := ih a j h
      refine ⟨h1, by omega, h3, fun k hk1 hk2 => ?_⟩
      rcases Nat.eq_or_lt_of_le (Nat.lt_succ_iff.mp (by omega : k < a + n + 1)) with rfl | hk
      · exact hpa
      · exact h4 k hk1 (by omega)
    · rw [hpa] at h
      dsimp at h
      obtain rfl := Option.some.inj h
      exact ⟨by omega, by omega, hpa, fun k hk1 hk2 => absurd hk1 (by omega)⟩

/-! ### The trim applier's behaviour (C5) -/

/-- Tentative start bound after shifting by the clamped start offset. -/
def trimNewStart (c : Candidate) (t : TrimSuggestion) : ℤ :=
  c.start_ms + pyRound (max 0 (t.start_offset_sec.getD 0) * 1000)

/-- Tentative end bound after shifting by the absolute end offset. -/
def trimNewEnd (c : Candidate) (t : TrimSuggestion) : ℤ :=
  c.end_ms - pyRound (|t.end_offset_sec.getD 0| * 1000)

/-- Exhaustive behaviour of one trim application: the candidate is either
returned unchanged, returned with only `trim_applied` cleared, or rewritten
to snapped segment bounds — and in that case the gate held (confidence at
least `0.8`, some normalized offset positive), the new start index is the
least index in `[start_idx, end_idx]` whose segment end reaches the
shifted start, the new end index the greatest index in
`[new_start_idx, end_idx]` whose segment start is at most the shifted
end, and the snapped duration lies in `[MIN_CLIP_MS, MAX_CLIP_MS]`. -/
theorem apply_trim_one_cases (segs : List TranscriptSegment) (c : Candidate) :
    apply_trim_one segs c = c ∨
    apply_trim_one segs c = { c with trim_applied := false } ∨
    (∃ t conf i j,
      c.llm_trim = some t ∧
      c.llm_trim_confidence = some conf ∧
      LLM_TRIM_CONFIDENCE_MIN ≤ conf ∧
      (0 < max 0 (t.start_offset_sec.getD 0) ∨ 0 < |t.end_offset_sec.getD 0|) ∧
      c.end_idx < segs.length ∧ c.start_idx ≤ c.end_idx ∧
      trimNewStart c t < trimNewEnd c t ∧
      c.start_idx ≤ i ∧ i ≤ c.end_idx ∧
      trimNewStart c t ≤ (segs.getD i default).end_ms ∧
      (∀ k, c.start_idx ≤ k → k < i →
        (segs.getD k default).end_ms < trimNewStart c t) ∧
      i ≤ j ∧ j ≤ c.end_idx ∧
      (segs.getD j default).start_ms ≤ trimNewEnd c t ∧
      (∀ k, j < k → k ≤ c.end_idx →
        trimNewEnd c t < (segs.getD k default).start_ms) ∧
      MIN_CLIP_MS ≤ (segs.getD j default).end_ms - (segs.getD i default).start_ms ∧
      (segs.getD j default).end_ms - (segs.getD i default).start_ms ≤ MAX_CLIP_MS ∧
      apply_trim_one segs c =
        { c with start_ms := (segs.getD i default).start_ms,
                 end_ms := (segs.getD j default).end_ms,
                 start_idx := i, end_idx := j, trim_applied := true }) := by
  unfold apply_trim_one
  dsimp only
  split
  · exact Or.inl rfl
  · rename_i t hT
    split
    · exact Or.inr (Or.inl rfl)
    · rename_i conf hC
      split
      · exact Or.inr (Or.inl rfl)
      · rename_i hconf
        split
        · exact Or.inl rfl
        · rename_i hoff
          split
          · exact Or.inl rfl
          · rename_i hidx
            split
            · exact Or.inl rfl
            · rename_i hne
              split
              · exact Or.inl rfl
              · rename_i i hf1
                split
                · exact Or.inl rfl
                · rename_i j hf2
                  split
                  · exact Or.inl rfl
                  · rename_i hji
                    split
                    · exact Or.inl rfl
                    · rename_i hdur
                      push_neg at hidx
                      obtain ⟨hi1, hi2, hi3, hi4⟩ := find?_range'_spec _ _ _ _ hf1
                      obtain ⟨hj1, hj2, hj3, hj4⟩ := find?_reverse_range'_spec _ _ _ _ hf2
                      have hile : i ≤ c.end_idx := by omega
                      have hjle : j ≤ c.end_idx := by omega
                      rw [not_or] at hdur
                      refine Or.inr (Or.inr ⟨t, conf, i, j, hT, hC, not_lt.mp hconf,
                        ?_, hidx.1, hidx.2, not_le.mp hne, hi1, hile,
                        of_decide_eq_true hi3,
                        fun k hk1 hk2 => not_le.mp (of_decide_eq_false (hi4 k hk1 hk2)),
                        hj1, hjle, of_decide_eq_true hj3,
                        fun k hk1 hk2 => not_le.mp
                          (of_decide_eq_false (hj4 k hk1 (by omega))),
                        not_lt.mp hdur.1, not_lt.mp hdur.2, rfl⟩)
                      rcases le_or_lt (max 0 (t.start_offset_sec.getD 0)) 0 with h | h
                      · right
                        by_contra hcon
                        exact hoff ⟨h, not_lt.mp hcon⟩
                      · exact Or.inl h

/-- A one-segment transcript for the negative-offset example. -/
def seg_neg : List TranscriptSegment :=
  [{ start_ms := 0, end_ms := 40000, text := "x", embedding := none }]

/-- A candidate whose LLM trim has `start_offset_sec = 0`,
`end_offset_sec = -5` and confidence `0.9`: neither offset is positive. -/
def cand_neg : Candidate :=
  { start_ms := 0, end_ms := 40000, start_idx := 0, end_idx := 0,
    heuristic_score := 0, heuristic_rationale := "", text := "x", hook_score := 0,
    gap_ms := 0, start_clean := true, end_clean := true,
    llm_trim := some { start_offset_sec := some 0, end_offset_sec := some (-5) },
    llm_trim_confidence := some (9/10) }

/-- C5 counterexample: the claim says a trim is applied only if
`trim_confidence ≥ 0.8` *and at least one offset is positive*; but the
code passes the end offset through `abs`, so the trim record
`{start_offset_sec: 0, end_offset_sec: -5, confidence: 0.9}` — with no
positive offset — is applied (`trim_applied = true`). -/
theorem apply_trim_negative_offset_applied :
    (apply_trim_one seg_neg cand_neg).trim_applied = true ∧
    cand_neg.llm_trim = some { start_offset_sec := some 0, end_offset_sec := some (-5) } ∧
    ¬ (0 < (0 : ℚ) ∨ 0 < (-5 : ℚ)) := by
  refine ⟨by decide, rfl, by decide⟩

/-- C5 as amended: for a candidate entering the trim applier (where
`trim_applied` is still false), the trim is applied only when
`trim_confidence ≥ 0.8` and at least one *normalized* offset is non-zero
(start clamped to `≥ 0`, end taken in absolute value); when applied, the
new start index is the least index in `[start_idx, end_idx]` with
`segments[i].end_ms ≥ new_start_ms`, the new end index the greatest
index in `[new_start_idx, end_idx]` with
`segments[j].start_ms ≤ new_end_ms`, the bounds are rewritten to those
segments' boundaries and the snapped duration stays in
`[MIN_CLIP_MS, MAX_CLIP_MS]`; when not applied (gate failed, snapping
failed, or the snapped duration left the window), the candidate is
unchanged. -/
theorem apply_trim_one_spec (segs : List TranscriptSegment) (c : Candidate)
    (h : c.trim_applied = false) :
    ((apply_trim_one segs c).trim_applied = false → apply_trim_one segs c = c) ∧
    ((apply_trim_one segs c).trim_applied = true →
      ∃ t conf, c.llm_trim = some t ∧ c.llm_trim_confidence = some conf ∧
        LLM_TRIM_CONFIDENCE_MIN ≤ conf ∧
        (0 < max 0 (t.start_offset_sec.getD 0) ∨ 0 < |t.end_offset_sec.getD 0|) ∧
        c.start_idx ≤ (apply_trim_one segs c).start_idx ∧
        (apply_trim_one segs c).start_idx ≤ (apply_trim_one segs c).end_idx ∧
        (apply_trim_one segs c).end_idx ≤ c.end_idx ∧
        trimNewStart c t ≤
          (segs.getD (apply_trim_one segs c).start_idx default).end_ms ∧
        (∀ k, c.start_idx ≤ k → k < (apply_trim_one segs c).start_idx →
          (segs.getD k default).end_ms < trimNewStart c t) ∧
        (segs.getD (apply_trim_one segs c).end_idx default).start_ms ≤
          trimNewEnd c t ∧
        (∀ k, (apply_trim_one segs c).end_idx < k → k ≤ c.end_idx →
          trimNewEnd c t < (segs.getD k default).start_ms) ∧
        (apply_trim_one segs c).start_ms =
          (segs.getD (apply_trim_one segs c).start_idx default).start_ms ∧
        (apply_trim_one segs c).end_ms =
          (segs.getD (apply_trim_one segs c).end_idx default).end_ms ∧
        MIN_CLIP_MS ≤ (apply_trim_one segs c).end_ms -
          (apply_trim_one segs c).start_ms ∧
        (apply_trim_one segs c).end_ms -
          (apply_trim_one segs c).start_ms ≤ MAX_CLIP_MS) := by
  rcases apply_trim_one_cases segs c with hcase | hcase |
    ⟨t, conf, i, j, hT, hC, hconf, hoffs, -, -, -, hi1, hile, hs, hminimal,
      hj1, hjle, he, hmaximal, hd1, hd2, heq⟩
  · refine ⟨fun _ => hcase, fun htrue => ?_⟩
    rw [hcase, h] at htrue
    exact absurd htrue (by decide)
  · constructor
    · intro _
      rw [hcase, ← h]
    · intro htrue
      rw [hcase] at htrue
      simp at htrue
  · constructor
    · intro hfalse
      rw [heq] at hfalse
      simp at hfalse
    · intro _
      refine ⟨t, conf, hT, hC, hconf, hoffs, ?_⟩
      rw [heq]
      dsimp only
      exact ⟨hi1, hj1, hjle, hs, hminimal, he, hmaximal, rfl, rfl, hd1, hd2⟩

/-- The two-segment transcript of the spec's trim scenario (boundaries at
11200 and 49600 ms). -/
def segs_tw : List TranscriptSegment :=
  [{ start_ms := 11200, end_ms := 20000, text := "a", embedding := none },
   { start_ms := 20000, end_ms := 49600, text := "b", embedding := none }]

/-- The spec's trim scenario 3 candidate: offsets `(1.5, 0.5)` but
confidence only `0.5`. -/
def cand_low : Candidate :=
  { start_ms := 10000, end_ms := 50000, start_idx := 0, end_idx := 1,
    heuristic_score := 0, heuristic_rationale := "", text := "ab", hook_score := 0,
    gap_ms := 0, start_clean := true, end_clean := true,
    llm_trim := some { start_offset_sec := some (3/2), end_offset_sec := some (1/2) },
    llm_trim_confidence := some (1/2) }

/-- C5 witness: the amended theorem applied at the spec's low-confidence
scenario — the trim is rejected and the candidate left unchanged. -/
theorem apply_trim_one_spec_witness :
    apply_trim_one segs_tw cand_low = cand_low :=
  (apply_trim_one_spec segs_tw cand_low rfl).1 (by decide)

/-! ### Breakpoint detection (C8) -/

/-- The interior gate of `_find_breakpoints`, spelled out: a long gap, or
(gap not long and) both embeddings present with similarity below the
threshold. -/
theorem breakpoint_at_iff (sim : Vec → Vec → ℚ)
    (segments : List TranscriptSegment) (i : ℕ) :
    breakpoint_at sim segments i = true ↔
      (LONG_GAP_MS < (segments.getD i default).start_ms -
          (segments.getD (i - 1) default).end_ms ∨
       ((segments.getD i default).start_ms -
          (segments.getD (i - 1) default).end_ms ≤ LONG_GAP_MS ∧
        ∃ a b, (segments.getD (i - 1) default).embedding = some a ∧
          (segments.getD i default).embedding = some b ∧
          sim a b < SEMANTIC_BREAKPOINT_SIMILARITY)) := by
  unfold breakpoint_at
  dsimp only
  split_ifs with hgap
  · simp only [true_iff]
    exact Or.inl hgap
  · have hle : (segments.getD i default).start_ms -
        (segments.getD (i - 1) default).end_ms ≤ LONG_GAP_MS := not_lt.mp hgap
    rcases hp : (segments.getD (i - 1) default).embedding with _ | a <;>
      rcases hc : (segments.getD i default).embedding with _ | b
    · refine iff_of_false (by simp) ?_
      rintro (hlt | ⟨-, a, b, ha, -, -⟩)
      · exact absurd hlt (not_lt.mpr hle)
      · simp at ha
    · refine iff_of_false (by simp) ?_
      rintro (hlt | ⟨-, a, b, ha, -, -⟩)
      · exact absurd hlt (not_lt.mpr hle)
      · simp at ha
    · refine iff_of_false (by simp) ?_
      rintro (hlt | ⟨-, a', b, -, hb, -⟩)
      · exact absurd hlt (not_lt.mpr hle)
      · simp at hb
    · rw [decide_eq_true_eq]
      constructor
      · intro hs
        exact Or.inr ⟨hle, a, b, rfl, rfl, hs⟩
      · rintro (hlt | ⟨-, a', b', ha', hb', hs⟩)
        · exact absurd hlt (not_lt.mpr hle)
        · obtain rfl := Option.some.inj ha'
          obtain rfl := Option.some.inj hb'
          exact hs

/-- `dedup_adjacent_go` is the identity past a strictly smaller `last`
on a strictly increasing list. -/
theorem dedup_adjacent_go_eq : ∀ (l : List ℕ) (last : ℕ),
    List.Chain (· < ·) last l → dedup_adjacent_go last l = l := by
  intro l
  induction l with
  | nil => intro last _; rfl
  | cons x xs ih =>
    intro last hchain
    rcases List.chain_cons.mp hchain with ⟨hlt, hchain'⟩
    unfold dedup_adjacent_go
    rw [if_neg (by omega), ih x hchain']

/-- The `cleaned` pass is the identity on strictly increasing lists. -/
theorem dedup_adjacent_eq (l : List ℕ) (h : List.Chain' (· < ·) l) :
    dedup_adjacent l = l := by
  cases l with
  | nil => rfl
  | cons x xs => exact congrArg (x :: ·) (dedup_adjacent_go_eq xs x h)

/-- C8: on a non-empty segment list, `_find_breakpoints` returns a
strictly increasing index list whose first element is `0` and last
element is `len(segments)`, and an interior index `i` appears in it iff
the gap before segment `i` exceeds `LONG_GAP_MS`, or that gap does not
exceed it and both adjacent segments carry embeddings whose similarity is
below `SEMANTIC_BREAKPOINT_SIMILARITY`. -/
theorem find_breakpoints_spec (sim : Vec → Vec → ℚ)
    (segments : List TranscriptSegment) (h : segments ≠ []) :
    List.Chain' (· < ·) (find_breakpoints sim segments) ∧
    (find_breakpoints sim segments).head? = some 0 ∧
    (find_breakpoints sim segments).getLast? = some segments.length ∧
    ∀ i, 0 < i → i < segments.length →
      (i ∈ find_breakpoints sim segments ↔
        (LONG_GAP_MS < (segments.getD i default).start_ms -
            (segments.getD (i - 1) default).end_ms ∨
         ((segments.getD i default).start_ms -
            (segments.getD (i - 1) default).end_ms ≤ LONG_GAP_MS ∧
          ∃ a b, (segments.getD (i - 1) default).embedding = some a ∧
            (segments.getD i default).embedding = some b ∧
            sim a b < SEMANTIC_BREAKPOINT_SIMILARITY))) := by
  have hn : 0 < segments.length := List.length_pos.mpr h
  have hpair : List.Pairwise (· < ·)
      (0 :: ((List.range' 1 (segments.length - 1)).filter
        (breakpoint_at sim segments) ++ [segments.length])) := by
    rw [List.pairwise_cons]
    constructor
    · intro x hx
      rcases List.mem_append.mp hx with hx | hx
      · have := (List.mem_range'_1.mp ((List.filter_sublist _).mem hx))
        omega
      · rw [List.mem_singleton.mp hx]; omega
    · rw [List.pairwise_append]
      refine ⟨(List.pairwise_lt_range' 1 (segments.length - 1)).sublist
        (List.filter_sublist _), List.pairwise_singleton _ _, ?_⟩
      intro a ha b hb
      rw [List.mem_singleton.mp hb]
      have := (List.mem_range'_1.mp ((List.filter_sublist _).mem ha))
      omega
  have hchain : List.Chain' (· < ·)
      (0 :: ((List.range' 1 (segments.length - 1)).filter
        (breakpoint_at sim segments) ++ [segments.length])) :=
    List.chain'_iff_pairwise.mpr hpair
  have hfb : find_breakpoints sim segments =
      0 :: ((List.range' 1 (segments.length - 1)).filter
        (breakpoint_at sim segments) ++ [segments.length]) := by
    unfold find_breakpoints
    rw [if_neg (by simpa [List.isEmpty_iff] using h)]
    exact dedup_adjacent_eq _ hchain
  rw [hfb]
  refine ⟨hchain, List.head?_cons, ?_, ?_⟩
  · rw [show (0 :: ((List.range' 1 (segments.length - 1)).filter
        (breakpoint_at sim segments) ++ [segments.length])) =
      (0 :: (List.range' 1 (segments.length - 1)).filter
        (breakpoint_at sim segments)) ++ [segments.length] from rfl]
    exact List.getLast?_concat _
  · intro i hi0 hin
    rw [← breakpoint_at_iff sim segments i]
    constructor
    · intro hmem
      rcases List.mem_cons.mp hmem with rfl | hmem
      · omega
      · rcases List.mem_append.mp hmem with hmem | hmem
        · exact List.of_mem_filter hmem
        · rw [List.mem_singleton.mp hmem] at hin
          omega
    · intro hbp
      refine List.mem_cons_of_mem _ (List.mem_append_left _ ?_)
      exact List.mem_filter.mpr ⟨List.mem_range'_1.mpr ⟨by omega, by omega⟩, hbp⟩

/-- Two segments separated by a 2-second silence, for the C8 witness. -/
def segs_gap : List TranscriptSegment :=
  [{ start_ms := 0, end_ms := 1000, text := "a", embedding := none },
   { start_ms := 3000, end_ms := 4000, text := "b", embedding := none }]

/-- C8 witness: the theorem applied to the concrete two-segment transcript
with a long gap; interior breakpoint 1 is present. -/
theorem find_breakpoints_spec_witness :
    segs_gap ≠ [] ∧ (1 ∈ find_breakpoints (fun _ _ => 0) segs_gap ↔
      (LONG_GAP_MS < (segs_gap.getD 1 default).start_ms -
          (segs_gap.getD 0 default).end_ms ∨
       ((segs_gap.getD 1 default).start_ms -
          (segs_gap.getD 0 default).end_ms ≤ LONG_GAP_MS ∧
        ∃ a b, (segs_gap.getD 0 default).embedding = some a ∧
          (segs_gap.getD 1 default).embedding = some b ∧
          (fun (_ _ : Vec) => (0 : ℚ)) a b < SEMANTIC_BREAKPOINT_SIMILARITY))) :=
  ⟨by decide, by
    have h := (find_breakpoints_spec (fun _ _ => 0) segs_gap (by decide)).2.2.2
      1 (by decide) (by decide)
    simpa using h⟩

/-! ### Prefix sums and the naive centroid (C9) -/

theorem vadd_assoc' (a b c : Vec) : vadd (vadd a b) c = vadd a (vadd b c) := by
  induction a generalizing b c with
  | nil => rfl
  | cons x a ih =>
    cases b with
    | nil => rfl
    | cons y b =>
      cases c with
      | nil => rfl
      | cons z c =>
        show (x + y + z) :: vadd (vadd a b) c = (x + (y + z)) :: vadd a (vadd b c)
        rw [ih, add_assoc]

theorem vzero_vadd (d : ℕ) (v : Vec) (h : v.length = d) : vadd (vzero d) v = v := by
  induction v generalizing d with
  | nil => cases h; rfl
  | cons x v ih =>
    cases d with
    | zero => cases h
    | succ d =>
      show (0 + x) :: vadd (vzero d) v = x :: v
      rw [zero_add, ih d (Nat.succ.inj h)]

theorem vadd_length (a b : Vec) : (vadd a b).length = min a.length b.length :=
  List.length_zipWith _ _ _

theorem foldl_vadd_length (d : ℕ) : ∀ (l : List Vec) (z : Vec),
    (∀ v ∈ l, v.length = d) → z.length = d → (l.foldl vadd z).length = d := by
  intro l
  induction l with
  | nil => intro z _ hz; exact hz
  | cons x l ih =>
    intro z hl hz
    have hx : x.length = d := hl x (by simp)
    refine ih (vadd z x) (fun v hv => hl v (by simp [hv])) ?_
    rw [vadd_length, hz, hx, min_self]

theorem foldl_vadd_shift : ∀ (l : List Vec) (A B : Vec),
    l.foldl vadd (vadd A B) = vadd A (l.foldl vadd B) := by
  intro l
  induction l with
  | nil => intro A B; rfl
  | cons x l ih =>
    intro A B
    show l.foldl vadd (vadd (vadd A B) x) = vadd A (l.foldl vadd (vadd B x))
    rw [vadd_assoc', ih]

theorem vsub_vadd_cancel : ∀ (A X : Vec), A.length = X.length →
    vsub (vadd A X) A = X := by
  intro A
  induction A with
  | nil => intro X h; cases X with | nil => rfl | cons y Y => cases h
  | cons a A ih =>
    intro X h
    cases X with
    | nil => cases h
    | cons x X =>
      show (a + x - a) :: vsub (vadd A X) A = x :: X
      rw [add_sub_cancel_left, ih X (Nat.succ.inj h)]

theorem scanl_vadd_getD : ∀ (l : List Vec) (z : Vec) (k : ℕ), k ≤ l.length →
    (List.scanl vadd z l).getD k default = (l.take k).foldl vadd z := by
  intro l
  induction l with
  | nil =>
    intro z k hk
    obtain rfl := Nat.le_zero.mp hk
    rfl
  | cons x l ih =>
    intro z k hk
    cases k with
    | zero => rfl
    | succ k =>
      rw [List.scanl]
      show (List.scanl vadd (vadd z x) l).getD k default = _
      rw [ih (vadd z x) k (by simpa using hk)]
      rfl

/-- `mapM` over `Option` restricted to a `take` of the input. -/
theorem mapM_option_take {α β : Type} (f : α → Option β) :
    ∀ (l : List α) (res : List β), l.mapM f = some res →
      ∀ k, (l.take k).mapM f = some (res.take k) := by
  intro l
  induction l with
  | nil =>
    intro res h k
    obtain rfl : res = [] := (Option.some.inj h).symm
    rw [List.take_nil, List.take_nil]
    rfl
  | cons x l ih =>
    intro res h k
    rw [List.mapM_cons] at h
    rcases hx : f x with _ | y
    · rw [hx] at h; cases h
    · rw [hx] at h
      rcases hrest : l.mapM f with _ | ys
      · rw [hrest] at h; cases h
      · rw [hrest] at h
        obtain rfl : res = y :: ys := (Option.some.inj h).symm
        cases k with
        | zero => rw [List.take_zero, List.take_zero]; rfl
        | succ k =>
          rw [List.take_succ_cons, List.take_succ_cons, List.mapM_cons, hx,
            ih ys hrest k]
          rfl

/-- `mapM` over `Option` restricted to a `drop` of the input. -/
theorem mapM_option_drop {α β : Type} (f : α → Option β) :
    ∀ (l : List α) (res : List β), l.mapM f = some res →
      ∀ k, (l.drop k).mapM f = some (res.drop k) := by
  intro l
  induction l with
  | nil =>
    intro res h k
    obtain rfl : res = [] := (Option.some.inj h).symm
    rw [List.drop_nil, List.drop_nil]
    rfl
  | cons x l ih =>
    intro res h k
    rw [List.mapM_cons] at h
    rcases hx : f x with _ | y
    · rw [hx] at h; cases h
    · rw [hx] at h
      rcases hrest : l.mapM f with _ | ys
      · rw [hrest] at h; cases h
      · rw [hrest] at h
        obtain rfl : res = y :: ys := (Option.some.inj h).symm
        cases k with
        | zero =>
          rw [List.drop_zero, List.drop_zero, List.mapM_cons, hx, hrest]
          rfl
        | succ k =>
          rw [List.drop_succ_cons, List.drop_succ_cons, ih ys hrest k]

/-- On a list where every embedding is present with dimension `d`, `mapM`
extracts the embedding list. -/
theorem mapM_embedding_total (d : ℕ) : ∀ (segments : List TranscriptSegment),
    (∀ s ∈ segments, ∃ v, s.embedding = some v ∧ v.length = d) →
    ∃ embs, segments.mapM (·.embedding) = some embs ∧
      embs.length = segments.length ∧ ∀ v ∈ embs, v.length = d := by
  intro segments
  induction segments with
  | nil => intro _; exact ⟨[], rfl, rfl, by simp⟩
  | cons s segments ih =>
    intro h
    obtain ⟨v, hv, hvd⟩ := h s (by simp)
    obtain ⟨embs, hembs, hlen, hd⟩ := ih (fun t ht => h t (by simp [ht]))
    refine ⟨v :: embs, ?_, by simp [hlen], ?_⟩
    · rw [List.mapM_cons, hv, hembs]; rfl
    · intro w hw
      rcases List.mem_cons.mp hw with rfl | hw
      · exact hvd
      · exact hd w hw

/-- Modelled from the spec (refinement reference): the *naive centroid* of
a candidate — "the arithmetic mean of the segment embeddings over
positions start_idx..end_idx" — computed directly on the slice, with no
prefix sums. -/
def naive_centroid (segments : List TranscriptSegment)
    (start_idx end_idx : ℕ) : Option Vec :=
  let slice := (segments.drop start_idx).take (end_idx - start_idx + 1)
  match slice.mapM (·.embedding) with
  | none => none
  | some [] => none
  | some (e :: rest) =>
    some (vdiv (rest.foldl vadd e) ((end_idx - start_idx + 1 : ℕ) : ℚ))

/-- C9: when every segment carries an embedding of a common dimension `d`
and `start_idx ≤ end_idx < len(segments)`, the prefix-sum candidate
embedding `(prefix[end_idx+1] - prefix[start_idx]) / count` equals the
naive centroid of the slice. -/
theorem candidate_embedding_eq_centroid (segments : List TranscriptSegment)
    (d : ℕ) (hall : ∀ s ∈ segments, ∃ v, s.embedding = some v ∧ v.length = d)
    (start_idx end_idx : ℕ) (hse : start_idx ≤ end_idx)
    (hen : end_idx < segments.length) :
    candidate_embedding (build_embedding_psum segments) start_idx end_idx =
      naive_centroid segments start_idx end_idx := by
  obtain ⟨embs, hembs, hlen, hd⟩ := mapM_embedding_total d segments hall
  have hne : ¬ segments.isEmpty := by
    cases segments with
    | nil => simp at hen
    | cons s l => simp
  have hpsum : build_embedding_psum segments =
      some (List.scanl vadd (vzero ((embs.headD []).length)) embs) := by
    unfold build_embedding_psum
    rw [if_neg hne, hembs]
  have hhead : (embs.headD []).length = d := by
    cases embs with
    | nil => rw [← hlen] at hen; simp at hen
    | cons e rest => exact hd e (by simp)
  rw [hpsum, hhead]
  have hslice : ((segments.drop start_idx).take (end_idx - start_idx + 1)).mapM
      (·.embedding) = some ((embs.drop start_idx).take (end_idx - start_idx + 1)) :=
    mapM_option_take _ _ _ (mapM_option_drop _ _ _ hembs start_idx) _
  have hslice_ne : (embs.drop start_idx).take (end_idx - start_idx + 1) ≠ [] := by
    have : start_idx < embs.length := by omega
    simp [List.take_eq_nil_iff, List.drop_eq_nil_iff]
    omega
  unfold candidate_embedding naive_centroid
  dsimp only
  rw [hslice]
  rcases hsl : (embs.drop start_idx).take (end_idx - start_idx + 1) with _ | ⟨e, rest⟩
  · exact absurd hsl hslice_ne
  · rw [if_neg (by rw [List.length_scanl]; omega), if_neg (by omega)]
    have hmem : ∀ v ∈ e :: rest, v ∈ embs := by
      intro v hv
      have hv' : v ∈ (embs.drop start_idx).take (end_idx - start_idx + 1) := by
        rw [hsl]; exact hv
      exact List.mem_of_mem_drop (List.mem_of_mem_take hv')
    have hsum : vsub ((List.scanl vadd (vzero d) embs).getD (end_idx + 1) default)
        ((List.scanl vadd (vzero d) embs).getD start_idx default) =
        rest.foldl vadd e := by
      rw [scanl_vadd_getD embs (vzero d) (end_idx + 1) (by omega),
        scanl_vadd_getD embs (vzero d) start_idx (by omega)]
      have htake : embs.take (end_idx + 1) =
          embs.take start_idx ++
            (embs.drop start_idx).take (end_idx - start_idx + 1) := by
        rw [← List.take_add]
        congr 1
        omega
      rw [htake, List.foldl_append, hsl, List.foldl_cons, foldl_vadd_shift]
      refine vsub_vadd_cancel _ _ ?_
      rw [foldl_vadd_length d _ _ (fun v hv => hd v (List.mem_of_mem_take hv))
          (by simp [vzero]),
        foldl_vadd_length d _ _ (fun v hv => hd v (hmem v (by simp [hv])))
          (hd e (hmem e (by simp)))]
    rw [hsum]

/-- Two segments carrying 2-dimensional embeddings, for the C9 witness. -/
def segs_emb : List TranscriptSegment :=
  [{ start_ms := 0, end_ms := 1000, text := "a", embedding := some [1, 2] },
   { start_ms := 1000, end_ms := 2000, text := "b", embedding := some [3, 5] }]

/-- C9 witness: the theorem applied on the concrete 2-dimensional
transcript; the shared value is the mean `[2, 7/2]`. -/
theorem candidate_embedding_eq_centroid_witness :
    candidate_embedding (build_embedding_psum segs_emb) 0 1 =
      naive_centroid segs_emb 0 1 ∧
    naive_centroid segs_emb 0 1 = some [2, 7/2] := by
  constructor
  · refine candidate_embedding_eq_centroid segs_emb 2 ?_ 0 1 (by decide) (by decide)
    intro s hs
    rcases List.mem_cons.mp hs with rfl | hs
    · exact ⟨[1, 2], rfl, rfl⟩
    · rcases List.mem_cons.mp hs with rfl | hs
      · exact ⟨[3, 5], rfl, rfl⟩
      · simp at hs
  · decide

/-! ### Score fusion (C6) -/

/-- `getD` of a mapped list below its length. -/
theorem getD_map_of_lt {α β : Type} (dA : α) (dB : β) (f : α → β) (l : List α)
    (i : ℕ) (hi : i < l.length) : (l.map f).getD i dB = f (l.getD i dA) := by
  rw [List.getD_eq_getElem?_getD, List.getD_eq_getElem?_getD, List.getElem?_map,
    List.getElem?_eq_getElem hi]
  rfl

/-- Scaling keeps the list length. -/
theorem scale_heuristic_scores_length (cs : List Candidate) :
    (scale_heuristic_scores cs).length = cs.length := by
  unfold scale_heuristic_scores
  dsimp only
  split_ifs <;> simp

/-- Pointwise description of `_scale_heuristic_scores`: each candidate
keeps all its fields and receives the rescaled (or constant-50)
`heuristic_scaled`. -/
theorem scale_heuristic_scores_getD (cs : List Candidate) (i : ℕ)
    (hi : i < cs.length) :
    (scale_heuristic_scores cs).getD i default =
      { cs.getD i default with heuristic_scaled :=
          (if |listMax (cs.map (·.heuristic_score)) -
              listMin (cs.map (·.heuristic_score))| < 1/1000000 then 50
          else ((cs.getD i default).heuristic_score -
              listMin (cs.map (·.heuristic_score))) /
            (listMax (cs.map (·.heuristic_score)) -
              listMin (cs.map (·.heuristic_score))) * 100) } := by
  unfold scale_heuristic_scores
  have hne : ¬ cs.isEmpty := by
    cases cs with
    | nil => simp at hi
    | cons c l => simp
  rw [if_neg hne]
  dsimp only
  split_ifs with hdeg
  · rw [getD_map_of_lt default default _ _ _ hi]
  · rw [getD_map_of_lt default default _ _ _ hi]

/-- The trim applier never touches the scoring fields. -/
theorem apply_trim_one_preserves (segs : List TranscriptSegment) (c : Candidate) :
    (apply_trim_one segs c).heuristic_scaled = c.heuristic_scaled ∧
    (apply_trim_one segs c).llm_score = c.llm_score ∧
    (apply_trim_one segs c).llm_reason = c.llm_reason ∧
    (apply_trim_one segs c).heuristic_rationale = c.heuristic_rationale := by
  rcases apply_trim_one_cases segs c with h | h |
    ⟨t, conf, i, j, -, -, -, -, -, -, -, -, -, -, -, -, -, -, -, -, -, heq⟩
  · rw [h]; exact ⟨rfl, rfl, rfl, rfl⟩
  · rw [h]; exact ⟨rfl, rfl, rfl, rfl⟩
  · rw [heq]; exact ⟨rfl, rfl, rfl, rfl⟩

/-- C6: when the LLM path ran (`llm_used`), the fused pipeline —
`_scale_heuristic_scores`, then `_apply_trim_suggestions`, then the
fusion loop — gives every candidate the score
`0.3 × heuristic_scaled + 0.7 × llm_score`, where `heuristic_scaled` is
the linear rescale of its heuristic score to `[0,100]` over the evaluated
set (constant `50` when the score range is below `1e-6`), and the LLM
reason as rationale when non-empty, else the heuristic rationale; when
the LLM did not run or failed, each candidate's score is exactly its
heuristic score and its rationale the heuristic rationale. -/
theorem score_fusion_spec (segs : List TranscriptSegment) (cs : List Candidate)
    (i : ℕ) (hi : i < cs.length) :
    (((apply_trim_suggestions segs (scale_heuristic_scores cs)).map
        fuse_candidate).getD i default).score =
      HEURISTIC_SCORE_WEIGHT *
        (if |listMax (cs.map (·.heuristic_score)) -
            listMin (cs.map (·.heuristic_score))| < 1/1000000 then 50
         else ((cs.getD i default).heuristic_score -
              listMin (cs.map (·.heuristic_score))) /
            (listMax (cs.map (·.heuristic_score)) -
              listMin (cs.map (·.heuristic_score))) * 100) +
      LLM_SCORE_WEIGHT * (cs.getD i default).llm_score ∧
    (((apply_trim_suggestions segs (scale_heuristic_scores cs)).map
        fuse_candidate).getD i default).rationale =
      (if (cs.getD i default).llm_reason ≠ "" then (cs.getD i default).llm_reason
       else (cs.getD i default).heuristic_rationale) ∧
    (assign_heuristic (cs.getD i default)).score =
      (cs.getD i default).heuristic_score ∧
    (assign_heuristic (cs.getD i default)).rationale =
      (cs.getD i default).heuristic_rationale := by
  have hlen : i < (apply_trim_suggestions segs (scale_heuristic_scores cs)).length := by
    unfold apply_trim_suggestions
    rw [List.length_map, scale_heuristic_scores_length]
    exact hi
  have hstep : ((apply_trim_suggestions segs (scale_heuristic_scores cs)).map
      fuse_candidate).getD i default =
      fuse_candidate (apply_trim_one segs ((scale_heuristic_scores cs).getD i default)) := by
    rw [getD_map_of_lt default default _ _ _ hlen]
    unfold apply_trim_suggestions
    rw [getD_map_of_lt default default _ _ _ (by rw [scale_heuristic_scores_length]; exact hi)]
  rw [hstep]
  obtain ⟨hp1, hp2, hp3, hp4⟩ :=
    apply_trim_one_preserves segs ((scale_heuristic_scores cs).getD i default)
  unfold fuse_candidate assign_heuristic
  dsimp only
  rw [hp1, hp2, hp3, hp4, scale_heuristic_scores_getD cs i hi]
  dsimp only
  exact ⟨rfl, rfl, rfl, rfl⟩

/-- A candidate annotated by the LLM path, for the C6 witness. -/
def cand_fuse : Candidate :=
  { start_ms := 0, end_ms := 40000, start_idx := 0, end_idx := 0,
    heuristic_score := 4, heuristic_rationale := "h", text := "t", hook_score := 0,
    gap_ms := 0, start_clean := true, end_clean := true,
    llm_score := 90, llm_reason := "good" }

/-- C6 witness: the theorem applied to a singleton evaluated set — the
degenerate range collapses `heuristic_scaled` to 50 and the fused score
is `0.3 × 50 + 0.7 × 90 = 78`. -/
theorem score_fusion_spec_witness :
    (((apply_trim_suggestions [] (scale_heuristic_scores [cand_fuse])).map
        fuse_candidate).getD 0 default).score = 78 ∧
    (assign_heuristic (([cand_fuse] : List Candidate).getD 0 default)).score = 4 := by
  constructor
  · rw [(score_fusion_spec [] [cand_fuse] 0 (by decide)).1]
    decide
  · rw [(score_fusion_spec [] [cand_fuse] 0 (by decide)).2.2.1]
    decide

/-- A one-segment transcript producing exactly one candidate. -/
def seg_run : List TranscriptSegment :=
  [{ start_ms := 0, end_ms := 40000, text := "Hola.", embedding := none }]

/-- C3 witness: the invariant applied to the concrete one-segment build
and to a concrete trim application. -/
theorem candidate_duration_invariant_witness :
    (MIN_CLIP_MS ≤ ((build_candidates seg_run true [0, 1]).headI).end_ms -
        ((build_candidates seg_run true [0, 1]).headI).start_ms) ∧
    (MIN_CLIP_MS ≤ (apply_trim_one segs_tw cand_low).end_ms -
        (apply_trim_one segs_tw cand_low).start_ms ∧
      (apply_trim_one segs_tw cand_low).end_ms -
        (apply_trim_one segs_tw cand_low).start_ms ≤ MAX_CLIP_MS) := by
  have hne : build_candidates seg_run true [0, 1] ≠ [] :=
    List.ne_nil_of_length_pos (by decide)
  have hmem : (build_candidates seg_run true [0, 1]).headI ∈
      build_candidates seg_run true [0, 1] := by
    cases hb : build_candidates seg_run true [0, 1] with
    | nil => exact absurd hb hne
    | cons c l => exact List.mem_cons_self c l
  refine ⟨(candidate_duration_invariant.1 seg_run true [0, 1] _ hmem).1, ?_⟩
  exact candidate_duration_invariant.2 segs_tw cand_low (by decide) (by decide) _
    (by simp [apply_trim_suggestions])

/-! ### The pipeline claims (C1, C2, C4) -/

/-- A trivial cosine oracle for concrete runs without embeddings. -/
def sim0 : Vec → Vec → ℚ := fun _ _ => 0

/-- The persistence tail truncates to `MAX_SUGGESTIONS` rows, and when the
re-read does not see a deletion it marks the sermon `suggested` and
returns the persisted count. -/
theorem finish_run_spec (sim : Vec → Vec → ℚ) (segments : List TranscriptSegment)
    (cands : List Candidate) (b d : Bool) :
    (finish_run sim segments cands b d).inserted_rows.length ≤ MAX_SUGGESTIONS ∧
    (d = false → (finish_run sim segments cands b d).marked_suggested = true ∧
      (finish_run sim segments cands b d).return_value =
        .done (finish_run sim segments cands b d).inserted_rows.length) ∧
    (d = true → (finish_run sim segments cands b d).return_value = .deleted ∧
      (finish_run sim segments cands b d).marked_suggested = false) := by
  unfold finish_run
  dsimp only
  refine ⟨?_, ?_, ?_⟩
  · rw [List.length_map]
    exact List.length_take_le _ _
  · rintro rfl
    refine ⟨rfl, ?_⟩
    show TaskReturn.done _ = TaskReturn.done _
    rw [List.length_map]
  · rintro rfl
    exact ⟨rfl, rfl⟩

/-- Every `.ok` outcome of `suggest_clips_core` is a `finish_run` value. -/
theorem suggest_clips_core_ok (type_vectors : List (String × Vec))
    (sim : Vec → Vec → ℚ) (segments : List TranscriptSegment) (u : Bool)
    (client : Except Unit (List ScoredItem)) (d : Bool) (r : RunResult)
    (h : suggest_clips_core type_vectors sim segments u client d = .ok r) :
    ∃ cands b, r = finish_run sim segments cands b d := by
  unfold suggest_clips_core at h
  dsimp only at h
  by_cases h1 : segments.isEmpty = true
  · rw [if_pos h1] at h; cases h
  · rw [if_neg h1] at h
    by_cases h2 : (prepared_candidates type_vectors sim segments).isEmpty = true
    · rw [if_pos h2] at h; cases h
    · rw [if_neg h2] at h
      by_cases h3 : u = true
      · rw [if_pos h3] at h
        rcases hsc : score_candidates_with_llm
            (llm_top type_vectors sim segments) client with e | ann
        · rw [hsc] at h
          rcases e with _ | _
          · dsimp only at h
            exact ⟨_, _, (Except.ok.inj h).symm⟩
          · cases h
        · rw [hsc] at h
          dsimp only at h
          exact ⟨_, _, (Except.ok.inj h).symm⟩
      · rw [if_neg h3] at h
        dsimp only at h
        exact ⟨_, _, (Except.ok.inj h).symm⟩

/-- C1: when the Deepseek client raises (network error, HTTP ≥ 300,
invalid JSON, missing choices/content, no usable scores), the
`DeepseekClientError` is caught and the run is *identical* to a
heuristic-only run — the task completes and the sermon never reaches the
error state because of such a failure.  But for the remaining failure
mode the claim lists — the client returning normally with *fewer
validated results than submitted* (indeed any normal return) — the task
aborts: `result_map = {item["id"]: item for item in results}` iterates
the returned dict's keys and raises an uncaught `TypeError`, so the
sermon is marked `error`.  The incomplete-scores guard that was meant to
downgrade this case is dead code. -/
theorem llm_failure_handling (type_vectors : List (String × Vec))
    (sim : Vec → Vec → ℚ) (segments : List TranscriptSegment)
    (client : Except Unit (List ScoredItem)) (d : Bool)
    (hfail : score_candidates_with_llm (llm_top type_vectors sim segments) client =
      .error .unavailable) :
    suggest_clips_core type_vectors sim segments true client d =
      suggest_clips_core type_vectors sim segments false client d ∧
    (∀ clips : List ScoredItem, segments ≠ [] →
      prepared_candidates type_vectors sim segments ≠ [] →
      suggest_clips_core type_vectors sim segments true (.ok clips) d =
        .error "TypeError") := by
  constructor
  · unfold suggest_clips_core
    dsimp only
    rw [hfail]
    rfl
  · intro clips hseg hcand
    unfold suggest_clips_core
    rw [if_neg (by simpa [List.isEmpty_iff] using hseg)]
    dsimp only
    rw [if_neg (by simpa [List.isEmpty_iff] using hcand)]
    rfl

/-- C1 witness: the theorem applied at a concrete one-segment transcript
(the client error downgrades to the heuristic run; a normal client return
makes the task raise `TypeError`). -/
theorem llm_failure_handling_witness :
    suggest_clips_core [] sim0 seg_run true (.error ()) false =
      suggest_clips_core [] sim0 seg_run false (.error ()) false ∧
    suggest_clips_core [] sim0 seg_run true (.ok []) false = .error "TypeError" := by
  have h := llm_failure_handling [] sim0 seg_run (.error ()) false rfl
  exact ⟨h.1, h.2 [] (by decide) (List.ne_nil_of_length_pos (by decide))⟩

/-- C2 as amended: if the post-persistence re-read sees the sermon
soft-deleted, the task returns the `deleted` marker and skips setting the
sermon status to `suggested` — but the soft-delete-and-insert persistence
step has *already committed* before that re-read, so the new clip rows
are written all the same. -/
theorem deleted_mid_run_behaviour (type_vectors : List (String × Vec))
    (sim : Vec → Vec → ℚ) (segments : List TranscriptSegment) (u : Bool)
    (client : Except Unit (List ScoredItem)) (r : RunResult)
    (h : suggest_clips_core type_vectors sim segments u client true = .ok r) :
    r.return_value = .deleted ∧ r.marked_suggested = false := by
  obtain ⟨cands, b, rfl⟩ :=
    suggest_clips_core_ok type_vectors sim segments u client true r h
  exact (finish_run_spec sim segments cands b true).2.2 rfl

/-- C2 counterexample: a candidate list of length one survives the whole
tail of the pipeline, so a run on `seg_run` persists exactly one clip
row; with the sermon soft-deleted mid-run the task still returns
`deleted` — refuting the claim that no clip rows are written and that the
persistence step is skipped in that case. -/
theorem deleted_mid_run_rows_written :
    (suggest_clips_core [] sim0 seg_run false (.error ()) true).map
        (fun r => (r.return_value, r.marked_suggested, r.inserted_rows.length)) =
      .ok (.deleted, false, 1) ∧ (1 : ℕ) ≠ 0 :=
  ⟨by decide, by decide⟩

/-- C2 witness: the amended theorem applied at the concrete run. -/
theorem deleted_mid_run_behaviour_witness :
    (suggest_clips_core [] sim0 seg_run false (.error ()) true).map
        (fun r => (r.return_value, r.marked_suggested)) = .ok (.deleted, false) := by
  have hok : (suggest_clips_core [] sim0 seg_run false (.error ()) true).isOk = true := by
    decide
  rcases hrun : suggest_clips_core [] sim0 seg_run false (.error ()) true with e | r
  · rw [hrun] at hok
    simp [Except.isOk, Except.toBool] at hok
  · have h := deleted_mid_run_behaviour [] sim0 seg_run false (.error ()) r hrun
    show Except.ok (r.return_value, r.marked_suggested) = .ok (.deleted, false)
    rw [h.1, h.2]

/-- C4 as amended: a successful run persists at most
`MAX_SUGGESTIONS = 15` suggestions (the final list is truncated), and
when the sermon was not deleted mid-run the status is set to `suggested`
and the return value reports the persisted count — *regardless* of that
count; the lower bound of 5 is not enforced (fewer than
`MIN_SUGGESTIONS` only logs a warning). -/
theorem suggestion_count_behaviour (type_vectors : List (String × Vec))
    (sim : Vec → Vec → ℚ) (segments : List TranscriptSegment) (u : Bool)
    (client : Except Unit (List ScoredItem)) (d : Bool) (r : RunResult)
    (h : suggest_clips_core type_vectors sim segments u client d = .ok r) :
    r.inserted_rows.length ≤ MAX_SUGGESTIONS ∧
    (d = false → r.marked_suggested = true ∧
      r.return_value = .done r.inserted_rows.length) := by
  obtain ⟨cands, b, rfl⟩ :=
    suggest_clips_core_ok type_vectors sim segments u client d r h
  exact ⟨(finish_run_spec sim segments cands b d).1,
    (finish_run_spec sim segments cands b d).2.1⟩

/-- C4 counterexample: the single-candidate run succeeds with only one
suggestion and still marks the sermon `suggested` — refuting the claimed
lower bound of 5 persisted suggestions. -/
theorem few_suggestions_still_suggested :
    (suggest_clips_core [] sim0 seg_run false (.error ()) false).map
        (fun r => (r.return_value, r.marked_suggested, r.inserted_rows.length)) =
      .ok (.done 1, true, 1) ∧ (1 : ℕ) < MIN_SUGGESTIONS :=
  ⟨by decide, by decide⟩

/-- C4 witness: the amended theorem applied at the concrete run. -/
theorem suggestion_count_behaviour_witness :
    (suggest_clips_core [] sim0 seg_run false (.error ()) false).map
        (fun r => r.marked_suggested) = .ok true ∧
    (suggest_clips_core [] sim0 seg_run false (.error ()) false).map
        (fun r => decide (r.inserted_rows.length ≤ MAX_SUGGESTIONS)) = .ok true := by
  have hok : (suggest_clips_core [] sim0 seg_run false (.error ()) false).isOk
      = true := by decide
  rcases hrun : suggest_clips_core [] sim0 seg_run false (.error ()) false with e | r
  · rw [hrun] at hok
    simp [Except.isOk, Except.toBool] at hok
  · have h := suggestion_count_behaviour [] sim0 seg_run false (.error ()) false r hrun
    constructor
    · show Except.ok r.marked_suggested = .ok true
      rw [(h.2 rfl).1]
    · show Except.ok (decide (r.inserted_rows.length ≤ MAX_SUGGESTIONS)) = .ok true
      rw [decide_eq_true h.1]
